import Mathlib

/-!
Verification of the rail-simulation core (track topology, braking model,
train dynamics) against its natural-language specification.

The source is TypeScript operating on IEEE doubles.  The embedding models
numbers as exact rationals (ℚ): all arithmetic in the source is translated
literally, and `Math.sqrt` — the only irrational operation — is either kept
as an explicit function parameter `sq : ℚ → ℚ` (for theorems that hold for
every square-root-like function) or instantiated with `ratSqrt`, a
computable rational square root that is exact on perfect rational squares
and a non-negative under-approximation elsewhere.  `Infinity` sentinels of
the source are modelled with `Option` (`none` standing for +∞).  Theorems
below never depend on the value of division by zero, so the idealization
agrees with the float semantics of the source on every input they mention.
-/

namespace RailSim

/-- Computable rational square root standing in for `Math.sqrt`: exact on
perfect rational squares (`ratSqrt (a*a) = a` for `a ≥ 0`), a non-negative
rational approximation on other inputs.  The source only ever applies
`Math.sqrt` to non-negative arguments, and no theorem below depends on the
value taken at a non-square argument beyond non-negativity and positivity. -/
def ratSqrt (q : ℚ) : ℚ := Rat.sqrt q

theorem ratSqrt_nonneg (q : ℚ) : 0 ≤ ratSqrt q := Rat.sqrt_nonneg q

theorem ratSqrt_pos {q : ℚ} (hq : 0 < q) : 0 < ratSqrt q := by
  unfold ratSqrt
  rw [Rat.sqrt]
  have hnum : 0 < q.num := Rat.num_pos.mpr hq
  have h1 : 1 ≤ Int.sqrt q.num := by
    rw [Int.sqrt]
    have h2 : 1 ≤ Nat.sqrt q.num.toNat := by
      have h3 : 1 ≤ q.num.toNat := by omega
      calc 1 = Nat.sqrt 1 := by rw [Nat.sqrt_one]
        _ ≤ Nat.sqrt q.num.toNat := Nat.sqrt_le_sqrt h3
    exact_mod_cast h2
  have hden : 1 ≤ Nat.sqrt q.den := by
    have h3 : 1 ≤ q.den := q.pos
    calc 1 = Nat.sqrt 1 := by rw [Nat.sqrt_one]
      _ ≤ Nat.sqrt q.den := Nat.sqrt_le_sqrt h3
  have h1q : (0:ℚ) < ((Int.sqrt q.num : ℤ) : ℚ) := by
    have : (0:ℤ) < Int.sqrt q.num := by omega
    exact_mod_cast this
  have hdq : (0:ℚ) < ((Nat.sqrt q.den : ℕ) : ℚ) := by
    have : 0 < Nat.sqrt q.den := hden
    exact_mod_cast this
  rw [Rat.mkRat_eq_div]
  exact div_pos h1q hdq

theorem ratSqrt_eq_of_sq {a q : ℚ} (ha : 0 ≤ a) (h : a * a = q) : ratSqrt q = a := by
  unfold ratSqrt
  rw [← h, Rat.sqrt_eq, abs_of_nonneg ha]

/-- Source: `utils/math.ts`, `clamp(v, min, max) = Math.max(min, Math.min(max, v))`. -/
def clamp (v lo hi : ℚ) : ℚ := max lo (min hi v)

/-- Planar coordinate; source `Vec2`. -/
structure Vec2 where
  x : ℚ
  y : ℚ
deriving DecidableEq, Repr

/-- Source: `utils/math.ts`, `distance(a, b) = sqrt(dx*dx + dy*dy)`. -/
def dist (a b : Vec2) : ℚ :=
  ratSqrt ((b.x - a.x) * (b.x - a.x) + (b.y - a.y) * (b.y - a.y))

/-! Braking model (source `physics/braking-model.ts`). -/

/-- Source `TrainParameters` (`types/train.ts`). -/
structure TrainParameters where
  length : ℚ
  mass : ℚ
  maxSpeed : ℚ
  maxAcceleration : ℚ
  serviceBrakeDecel : ℚ
  emergencyBrakeDecel : ℚ
  rotatingMassFactor : ℚ
  reactionTimeService : ℚ
  reactionTimeEmergency : ℚ
deriving DecidableEq, Repr

/-- Source `DEFAULT_TRAIN_PARAMS` (`types/train.ts`). -/
def DEFAULT_TRAIN_PARAMS : TrainParameters where
  length := 200
  mass := 400000
  maxSpeed := 444/10
  maxAcceleration := 6/10
  serviceBrakeDecel := 6/10
  emergencyBrakeDecel := 1
  rotatingMassFactor := 106/100
  reactionTimeService := 3
  reactionTimeEmergency := 3/2

/-- Source `GradientPoint` (`types/topology.ts`). -/
structure GradientPoint where
  offset : ℚ
  slope : ℚ
deriving DecidableEq, Repr

/-- Source `BrakingCurvePoint` (`types/braking.ts`). -/
structure CurvePoint where
  distance : ℚ
  speed : ℚ
deriving DecidableEq, Repr

/-- Source `BrakingTarget` (`types/braking.ts`). -/
structure BrakingTarget where
  targetDistance : ℚ
  targetSpeed : ℚ
  gradient : ℚ
deriving DecidableEq, Repr

/-- Source `BrakingCurveSet` (`types/braking.ts`). -/
structure BrakingCurveSet where
  emergencyBrake : List CurvePoint
  serviceBrake : List CurvePoint
  warning : List CurvePoint
  permitted : List CurvePoint
  indication : List CurvePoint
deriving DecidableEq, Repr

/-- Gravitational constant of the source: `const G = 9.81`. -/
def gravG : ℚ := 981/100

/-- Source `BrakingModel.effectiveDeceleration`:
`max(0.01, (baseDecel + G*gradientPermille/1000) / rotatingMassFactor)`. -/
def effectiveDeceleration (params : TrainParameters) (baseDecel gradientPermille : ℚ) : ℚ :=
  let gradComponent := gravG * gradientPermille / 1000
  let aEff := (baseDecel + gradComponent) / params.rotatingMassFactor
  max (1/100) aEff

theorem effectiveDeceleration_pos (params : TrainParameters) (b g : ℚ) :
    0 < effectiveDeceleration params b g :=
  lt_of_lt_of_le (by norm_num) (le_max_left _ _)

/-- Inner loop of `BrakingModel.getGradientAt`: walk the profile keeping the
slope of the last point with `offset ≤ query`, stopping at the first point
beyond it. -/
def gradLoop (offset : ℚ) : List GradientPoint → ℚ → ℚ
  | [], slope => slope
  | gp :: rest, slope => if gp.offset ≤ offset then gradLoop offset rest gp.slope else slope

/-- Source `BrakingModel.getGradientAt` (private helper on a raw profile):
initial slope is `profile[0].slope`, then the step-function walk. -/
def getGradientAtProfile (profile : List GradientPoint) (offset : ℚ) : ℚ :=
  match profile with
  | [] => 0
  | gp0 :: _ => gradLoop offset profile gp0.slope

/-- Quantity `vSquared = v*v + 2*aEff*step` of one iteration of the
backward-integration loop in `BrakingModel.computeBrakingCurve`, where
`aEff = effectiveDeceleration(decel, gradientAt(d))` and
`step = min(stepSize, d)`. -/
def brakingVSq (params : TrainParameters) (decel stepSize : ℚ)
    (profile : List GradientPoint) (d v : ℚ) : ℚ :=
  v * v + 2 * effectiveDeceleration params decel (getGradientAtProfile profile d) *
    min stepSize d

/-- Backward-integration loop of `BrakingModel.computeBrakingCurve`
(`while (d > 0) { ... }`), with explicit fuel.  Each iteration shortens `d`
by `min stepSize d` with `stepSize ≥ 1`, so `⌈targetDistance⌉ + 1` units of
fuel always let the loop run to its natural exit; the fuel only makes the
recursion structural.  `sq` stands for `Math.sqrt`. -/
def brakingLoop (sq : ℚ → ℚ) (params : TrainParameters) (decel stepSize : ℚ)
    (profile : List GradientPoint) :
    ℕ → ℚ → ℚ → List CurvePoint → List CurvePoint
  | 0, _, _, acc => acc
  | fuel + 1, d, v, acc =>
    if 0 < d then
      if brakingVSq params decel stepSize profile d v < 0 then acc
      else
        if 120 < sq (brakingVSq params decel stepSize profile d v) then
          ⟨max 0 (d - min stepSize d), sq (brakingVSq params decel stepSize profile d v)⟩ :: acc
        else
          brakingLoop sq params decel stepSize profile fuel (d - min stepSize d)
            (sq (brakingVSq params decel stepSize profile d v))
            (⟨max 0 (d - min stepSize d),
              sq (brakingVSq params decel stepSize profile d v)⟩ :: acc)
    else acc

/-- Source `BrakingModel.computeBrakingCurve`: integrate backward from the
target with `v² = v₀² + 2·a_eff·Δs`, then apply the reaction-time shift
(`distance := max(0, distance - topSpeed·reactionTime)`) and prepend a
constant-speed point at distance 0 if the shift left a gap. -/
def computeBrakingCurve (sq : ℚ → ℚ) (params : TrainParameters)
    (targetSpeed targetDistance deceleration reactionTime : ℚ)
    (profile : List GradientPoint) : List CurvePoint :=
  let stepSize := max 1 (targetDistance / 500)
  let fuel := targetDistance.ceil.toNat + 1
  let base := brakingLoop sq params deceleration stepSize profile fuel
    targetDistance targetSpeed [⟨targetDistance, targetSpeed⟩]
  if 0 < reactionTime then
    match base with
    | [] => base
    | c0 :: _ =>
      let topSpeed := c0.speed
      let reactionDist := topSpeed * reactionTime
      let shifted := base.map fun p => ⟨max 0 (p.distance - reactionDist), p.speed⟩
      match shifted with
      | [] => shifted
      | s0 :: srest =>
        if 0 < s0.distance then ⟨0, topSpeed⟩ :: s0 :: srest else s0 :: srest
  else base

/-- Source `BrakingModel.computeCurves`: the five supervision curves,
differing only in the deceleration / reaction-time pair. -/
def computeCurves (sq : ℚ → ℚ) (params : TrainParameters) (target : BrakingTarget)
    (profile : List GradientPoint) : BrakingCurveSet where
  emergencyBrake := computeBrakingCurve sq params target.targetSpeed target.targetDistance
    params.emergencyBrakeDecel (params.reactionTimeEmergency * (1/2)) profile
  serviceBrake := computeBrakingCurve sq params target.targetSpeed target.targetDistance
    params.serviceBrakeDecel (params.reactionTimeService * (1/2)) profile
  warning := computeBrakingCurve sq params target.targetSpeed target.targetDistance
    params.emergencyBrakeDecel params.reactionTimeEmergency profile
  permitted := computeBrakingCurve sq params target.targetSpeed target.targetDistance
    params.serviceBrakeDecel params.reactionTimeService profile
  indication := computeBrakingCurve sq params target.targetSpeed target.targetDistance
    params.serviceBrakeDecel (params.reactionTimeService + 4) profile

/-- Supervision status, source union type
`'normal' | 'indication' | 'permitted' | 'warning' | 'intervention'`. -/
inductive SupervisionStatus where
  | normal
  | indication
  | permitted
  | warning
  | intervention
deriving DecidableEq, Repr

/-- Pairwise scan of `speedAtDist` inside `BrakingModel.getSupervisionStatus`:
the first index `i` with `curve[i].distance ≤ x ≤ curve[i+1].distance` wins
and the speed is interpolated linearly there. -/
def interpLoop (x : ℚ) : List CurvePoint → Option ℚ
  | p :: q :: rest =>
    if p.distance ≤ x ∧ x ≤ q.distance then
      some (p.speed + (x - p.distance) / (q.distance - p.distance) * (q.speed - p.speed))
    else interpLoop x (q :: rest)
  | _ => none

/-- Source helper `speedAtDist` of `BrakingModel.getSupervisionStatus`.
The `Infinity` returned for an empty curve is modelled as `none`. -/
def speedAtDist : List CurvePoint → ℚ → Option ℚ
  | [], _ => none
  | c0 :: rest, x =>
    match interpLoop x (c0 :: rest) with
    | some v => some v
    | none =>
      if x ≤ c0.distance then some c0.speed
      else some ((c0 :: rest).getLast (by simp)).speed

/-- Comparison `currentSpeed >= allowedSpeed` where the allowed speed may be
the `Infinity` sentinel (`none`), in which case the comparison is false. -/
def geAllowed (v : ℚ) : Option ℚ → Bool
  | none => false
  | some s => v ≥ s

/-- Source `BrakingModel.getSupervisionStatus`: classify against the curves,
most restrictive first. -/
def getSupervisionStatus (currentSpeed distanceToTarget : ℚ)
    (curves : BrakingCurveSet) : SupervisionStatus :=
  let ebdSpeed := speedAtDist curves.emergencyBrake distanceToTarget
  let warningSpeed := speedAtDist curves.warning distanceToTarget
  let permittedSpeed := speedAtDist curves.permitted distanceToTarget
  let indicationSpeed := speedAtDist curves.indication distanceToTarget
  if geAllowed currentSpeed ebdSpeed then .intervention
  else if geAllowed currentSpeed warningSpeed then .warning
  else if geAllowed currentSpeed permittedSpeed then .permitted
  else if geAllowed currentSpeed indicationSpeed then .indication
  else .normal

/-! Structural lemmas about the backward integration loop. -/

theorem brakingLoop_suffix (sq : ℚ → ℚ) (params : TrainParameters) (decel stepSize : ℚ)
    (profile : List GradientPoint) (fuel : ℕ) (d v : ℚ) (acc : List CurvePoint) :
    ∃ l, brakingLoop sq params decel stepSize profile fuel d v acc = l ++ acc := by
  induction fuel generalizing d v acc with
  | zero => exact ⟨[], rfl⟩
  | succ n ih =>
    unfold brakingLoop
    split_ifs with h1 h2 h3
    · exact ⟨[], rfl⟩
    · exact ⟨[_], rfl⟩
    · obtain ⟨l, hl⟩ := ih (d - min stepSize d)
        (sq (brakingVSq params decel stepSize profile d v))
        (⟨max 0 (d - min stepSize d), sq (brakingVSq params decel stepSize profile d v)⟩ :: acc)
      exact ⟨l ++ [_], by simpa using hl⟩
    · exact ⟨[], rfl⟩

theorem brakingLoop_ne_nil (sq : ℚ → ℚ) (params : TrainParameters) (decel stepSize : ℚ)
    (profile : List GradientPoint) (fuel : ℕ) (d v : ℚ) (acc : List CurvePoint)
    (hacc : acc ≠ []) :
    brakingLoop sq params decel stepSize profile fuel d v acc ≠ [] := by
  obtain ⟨l, hl⟩ := brakingLoop_suffix sq params decel stepSize profile fuel d v acc
  rw [hl]
  simp [hacc]

theorem brakingLoop_getLast? (sq : ℚ → ℚ) (params : TrainParameters) (decel stepSize : ℚ)
    (profile : List GradientPoint) (fuel : ℕ) (d v : ℚ) (acc : List CurvePoint)
    {p : CurvePoint} (hacc : acc.getLast? = some p) :
    (brakingLoop sq params decel stepSize profile fuel d v acc).getLast? = some p := by
  obtain ⟨l, hl⟩ := brakingLoop_suffix sq params decel stepSize profile fuel d v acc
  rw [hl, List.getLast?_append, hacc]
  rfl

theorem brakingLoop_mem_nonneg (sq : ℚ → ℚ) (params : TrainParameters) (decel stepSize : ℚ)
    (profile : List GradientPoint) (fuel : ℕ) (d v : ℚ) (acc : List CurvePoint)
    (hsq : ∀ q, 0 ≤ sq q)
    (hacc : ∀ p ∈ acc, 0 ≤ p.distance ∧ 0 ≤ p.speed) :
    ∀ p ∈ brakingLoop sq params decel stepSize profile fuel d v acc,
      0 ≤ p.distance ∧ 0 ≤ p.speed := by
  induction fuel generalizing d v acc with
  | zero => exact hacc
  | succ n ih =>
    unfold brakingLoop
    split_ifs with h1 h2 h3
    · exact hacc
    · intro p hp
      rcases List.mem_cons.mp hp with h | h
      · subst h; exact ⟨le_max_left _ _, hsq _⟩
      · exact hacc p h
    · refine ih _ _ _ ?_
      intro p hp
      rcases List.mem_cons.mp hp with h | h
      · subst h; exact ⟨le_max_left _ _, hsq _⟩
      · exact hacc p h
    · exact hacc

theorem brakingLoop_mem_distance_le (sq : ℚ → ℚ) (params : TrainParameters)
    (decel stepSize : ℚ) (profile : List GradientPoint) (fuel : ℕ) (d v : ℚ)
    (acc : List CurvePoint) (D : ℚ) (hstep : 1 ≤ stepSize) (hD : 0 ≤ D) (hd : d ≤ D)
    (hacc : ∀ p ∈ acc, p.distance ≤ D) :
    ∀ p ∈ brakingLoop sq params decel stepSize profile fuel d v acc, p.distance ≤ D := by
  induction fuel generalizing d v acc with
  | zero => exact hacc
  | succ n ih =>
    unfold brakingLoop
    split_ifs with h1 h2 h3
    · exact hacc
    · intro p hp
      rcases List.mem_cons.mp hp with h | h
      · subst h
        simp only [max_le_iff]
        refine ⟨hD, ?_⟩
        have := lt_min (show (0:ℚ) < stepSize by linarith) h1
        linarith
      · exact hacc p h
    · have hmin := lt_min (show (0:ℚ) < stepSize by linarith) h1
      refine ih _ _ _ (by linarith) ?_
      intro p hp
      rcases List.mem_cons.mp hp with h | h
      · subst h
        simp only [max_le_iff]
        exact ⟨hD, by linarith⟩
      · exact hacc p h
    · exact hacc

theorem brakingVSq_pos (params : TrainParameters) (decel stepSize : ℚ)
    (profile : List GradientPoint) (d v : ℚ) (hstep : 1 ≤ stepSize) (hd : 0 < d) :
    0 < brakingVSq params decel stepSize profile d v := by
  unfold brakingVSq
  have hstep0 : 0 < min stepSize d := lt_min (by linarith) hd
  have haeff := effectiveDeceleration_pos params decel (getGradientAtProfile profile d)
  have hvv : 0 ≤ v * v := mul_self_nonneg v
  nlinarith

theorem brakingLoop_head_speed_pos (sq : ℚ → ℚ) (params : TrainParameters)
    (decel stepSize : ℚ) (profile : List GradientPoint) (fuel : ℕ) (d v : ℚ)
    (acc : List CurvePoint)
    (hsqp : ∀ q, 0 < q → 0 < sq q) (hstep : 1 ≤ stepSize)
    (hfuel : 0 < fuel) (hd : 0 < d) :
    ∃ p rest, brakingLoop sq params decel stepSize profile fuel d v acc = p :: rest ∧
      0 < p.speed := by
  induction fuel generalizing d v acc with
  | zero => omega
  | succ n ih =>
    have hvsq := brakingVSq_pos params decel stepSize profile d v hstep hd
    have hv2 : 0 < sq (brakingVSq params decel stepSize profile d v) := hsqp _ hvsq
    unfold brakingLoop
    rw [if_pos hd, if_neg (not_lt.mpr (le_of_lt hvsq))]
    split_ifs with h120
    · exact ⟨_, _, rfl, hv2⟩
    · rcases Nat.eq_zero_or_pos n with hn | hn
      · subst hn
        exact ⟨_, _, rfl, hv2⟩
      · rcases lt_or_le 0 (d - min stepSize d) with hd2 | hd2
        · exact ih _ _ _ hn hd2
        · rcases Nat.exists_eq_succ_of_ne_zero (Nat.pos_iff_ne_zero.mp hn) with ⟨m, hm⟩
          subst hm
          unfold brakingLoop
          rw [if_neg (not_lt.mpr hd2)]
          exact ⟨_, _, rfl, hv2⟩

theorem brakingLoop_chain (sq : ℚ → ℚ) (params : TrainParameters)
    (decel stepSize : ℚ) (profile : List GradientPoint) (fuel : ℕ) (d v : ℚ)
    (acc : List CurvePoint) (hstep : 1 ≤ stepSize)
    (hchain : (acc.map (·.distance)).Chain' (· < ·))
    (hhead : ∃ p rest, acc = p :: rest ∧ p.distance = d) :
    ((brakingLoop sq params decel stepSize profile fuel d v acc).map (·.distance)).Chain'
        (· < ·) ∧
      ∃ p rest, brakingLoop sq params decel stepSize profile fuel d v acc = p :: rest ∧
        p.distance ≤ d := by
  induction fuel generalizing d v acc with
  | zero =>
    refine ⟨hchain, ?_⟩
    obtain ⟨p, rest, hpr, hpd⟩ := hhead
    exact ⟨p, rest, hpr, le_of_eq hpd⟩
  | succ n ih =>
    obtain ⟨p0, rest0, hacc0, hpd0⟩ := hhead
    unfold brakingLoop
    split_ifs with h1 h2 h3
    · exact ⟨hchain, p0, rest0, hacc0, le_of_eq hpd0⟩
    · have hmax : max 0 (d - min stepSize d) = d - min stepSize d :=
        max_eq_right (by linarith [min_le_right stepSize d])
      have hlt : d - min stepSize d < d := by
        have : 0 < min stepSize d := lt_min (by linarith) h1
        linarith
      constructor
      · rw [hacc0]
        simp only [List.map_cons, List.chain'_cons]
        rw [hacc0] at hchain
        refine ⟨?_, hchain⟩
        rw [hmax, hpd0]
        exact hlt
      · refine ⟨_, _, rfl, ?_⟩
        simp only [hmax]
        have := lt_min (show (0:ℚ) < stepSize by linarith) h1
        linarith
    · have hmax : max 0 (d - min stepSize d) = d - min stepSize d :=
        max_eq_right (by linarith [min_le_right stepSize d])
      have hlt : d - min stepSize d < d := by
        have : 0 < min stepSize d := lt_min (by linarith) h1
        linarith
      have hchain2 : (((⟨max 0 (d - min stepSize d),
          sq (brakingVSq params decel stepSize profile d v)⟩ : CurvePoint) ::
          acc).map (·.distance)).Chain' (· < ·) := by
        rw [hacc0]
        simp only [List.map_cons, List.chain'_cons]
        rw [hacc0] at hchain
        refine ⟨?_, hchain⟩
        rw [hmax, hpd0]
        exact hlt
      obtain ⟨hc, p, rest, hpr, hpd⟩ := ih (d - min stepSize d) _ _ hchain2
        ⟨_, acc, rfl, by rw [hmax]⟩
      exact ⟨hc, p, rest, hpr, by linarith⟩
    · exact ⟨hchain, p0, rest0, hacc0, le_of_eq hpd0⟩

/-! Lemmas about a complete braking curve. -/

theorem brakingLoop_exists_cons (sq : ℚ → ℚ) (params : TrainParameters)
    (decel stepSize : ℚ) (profile : List GradientPoint) (fuel : ℕ) (d v : ℚ)
    (acc : List CurvePoint) (hacc : acc ≠ []) :
    ∃ c0 brest, brakingLoop sq params decel stepSize profile fuel d v acc = c0 :: brest := by
  have h := brakingLoop_ne_nil sq params decel stepSize profile fuel d v acc hacc
  exact List.exists_cons_of_ne_nil h

theorem computeBrakingCurve_eq_of_shift (sq : ℚ → ℚ) (params : TrainParameters)
    (ts D decel r : ℚ) (profile : List GradientPoint) (hr : 0 < r)
    {c0 : CurvePoint} {brest : List CurvePoint}
    (hB : brakingLoop sq params decel (max 1 (D / 500)) profile
      (D.ceil.toNat + 1) D ts [⟨D, ts⟩] = c0 :: brest) :
    computeBrakingCurve sq params ts D decel r profile =
      (if 0 < max 0 (c0.distance - c0.speed * r) then
        (⟨0, c0.speed⟩ : CurvePoint) ::
          (c0 :: brest).map (fun p => ⟨max 0 (p.distance - c0.speed * r), p.speed⟩)
      else
        (c0 :: brest).map (fun p => ⟨max 0 (p.distance - c0.speed * r), p.speed⟩)) := by
  simp only [computeBrakingCurve]
  rw [hB, if_pos hr]
  simp only [List.map_cons]

theorem computeBrakingCurve_no_shift (sq : ℚ → ℚ) (params : TrainParameters)
    (ts D decel r : ℚ) (profile : List GradientPoint) (hr : ¬ 0 < r) :
    computeBrakingCurve sq params ts D decel r profile =
      brakingLoop sq params decel (max 1 (D / 500)) profile
        (D.ceil.toNat + 1) D ts [⟨D, ts⟩] := by
  unfold computeBrakingCurve
  rw [if_neg hr]

theorem computeBrakingCurve_ne_nil (sq : ℚ → ℚ) (params : TrainParameters)
    (ts D decel r : ℚ) (profile : List GradientPoint) :
    computeBrakingCurve sq params ts D decel r profile ≠ [] := by
  obtain ⟨c0, brest, hB⟩ := brakingLoop_exists_cons sq params decel (max 1 (D / 500))
    profile (D.ceil.toNat + 1) D ts [⟨D, ts⟩] (by simp)
  by_cases hr : 0 < r
  · rw [computeBrakingCurve_eq_of_shift sq params ts D decel r profile hr hB]
    split_ifs <;> simp
  · rw [computeBrakingCurve_no_shift sq params ts D decel r profile hr, hB]
    simp

theorem computeBrakingCurve_getLast?_speed (sq : ℚ → ℚ) (params : TrainParameters)
    (ts D decel r : ℚ) (profile : List GradientPoint) :
    ((computeBrakingCurve sq params ts D decel r profile).getLast?).map (·.speed) =
      some ts := by
  obtain ⟨c0, brest, hB⟩ := brakingLoop_exists_cons sq params decel (max 1 (D / 500))
    profile (D.ceil.toNat + 1) D ts [⟨D, ts⟩] (by simp)
  have hlast : (c0 :: brest).getLast? = some ⟨D, ts⟩ := by
    rw [← hB]
    exact brakingLoop_getLast? sq params decel (max 1 (D / 500)) profile
      (D.ceil.toNat + 1) D ts [⟨D, ts⟩] (by rfl)
  by_cases hr : 0 < r
  · rw [computeBrakingCurve_eq_of_shift sq params ts D decel r profile hr hB]
    have hmap : ((c0 :: brest).map
        (fun p => (⟨max 0 (p.distance - c0.speed * r), p.speed⟩ : CurvePoint))).getLast? =
        some ⟨max 0 (D - c0.speed * r), ts⟩ := by
      rw [List.getLast?_map, hlast]
      rfl
    split_ifs with h2
    · rw [List.getLast?_cons, hmap]
      rfl
    · rw [hmap]
      rfl
  · rw [computeBrakingCurve_no_shift sq params ts D decel r profile hr, hB, hlast]
    rfl

theorem computeBrakingCurve_mem_nonneg (sq : ℚ → ℚ) (params : TrainParameters)
    (ts D decel r : ℚ) (profile : List GradientPoint)
    (hsq : ∀ q, 0 ≤ sq q) (hts : 0 ≤ ts) (hD : 0 ≤ D) :
    ∀ p ∈ computeBrakingCurve sq params ts D decel r profile,
      0 ≤ p.distance ∧ 0 ≤ p.speed := by
  obtain ⟨c0, brest, hB⟩ := brakingLoop_exists_cons sq params decel (max 1 (D / 500))
    profile (D.ceil.toNat + 1) D ts [⟨D, ts⟩] (by simp)
  have hnn : ∀ p ∈ c0 :: brest, 0 ≤ p.distance ∧ 0 ≤ p.speed := by
    rw [← hB]
    exact brakingLoop_mem_nonneg sq params decel (max 1 (D / 500)) profile
      (D.ceil.toNat + 1) D ts [⟨D, ts⟩] hsq
      (by intro p hp; simp at hp; subst hp; exact ⟨hD, hts⟩)
  have hc0 := hnn c0 (by simp)
  by_cases hr : 0 < r
  · rw [computeBrakingCurve_eq_of_shift sq params ts D decel r profile hr hB]
    have hmap : ∀ p ∈ (c0 :: brest).map
        (fun p => (⟨max 0 (p.distance - c0.speed * r), p.speed⟩ : CurvePoint)),
        0 ≤ p.distance ∧ 0 ≤ p.speed := by
      intro p hp
      rcases List.mem_map.mp hp with ⟨q, hq, rfl⟩
      exact ⟨le_max_left _ _, (hnn q hq).2⟩
    split_ifs with h2
    · intro p hp
      rcases List.mem_cons.mp hp with h | h
      · subst h
        exact ⟨le_refl 0, hc0.2⟩
      · exact hmap p h
    · exact hmap
  · rw [computeBrakingCurve_no_shift sq params ts D decel r profile hr, hB]
    exact hnn

theorem computeBrakingCurve_mem_distance_le (sq : ℚ → ℚ) (params : TrainParameters)
    (ts D decel r : ℚ) (profile : List GradientPoint)
    (hsq : ∀ q, 0 ≤ sq q) (hts : 0 ≤ ts) (hD : 0 ≤ D) :
    ∀ p ∈ computeBrakingCurve sq params ts D decel r profile, p.distance ≤ D := by
  obtain ⟨c0, brest, hB⟩ := brakingLoop_exists_cons sq params decel (max 1 (D / 500))
    profile (D.ceil.toNat + 1) D ts [⟨D, ts⟩] (by simp)
  have hle : ∀ p ∈ c0 :: brest, p.distance ≤ D := by
    rw [← hB]
    exact brakingLoop_mem_distance_le sq params decel (max 1 (D / 500)) profile
      (D.ceil.toNat + 1) D ts [⟨D, ts⟩] D (le_max_left _ _) hD (le_refl D)
      (by intro p hp; simp at hp; subst hp; rfl)
  have hnn : ∀ p ∈ c0 :: brest, 0 ≤ p.distance ∧ 0 ≤ p.speed := by
    rw [← hB]
    exact brakingLoop_mem_nonneg sq params decel (max 1 (D / 500)) profile
      (D.ceil.toNat + 1) D ts [⟨D, ts⟩] hsq
      (by intro p hp; simp at hp; subst hp; exact ⟨hD, hts⟩)
  by_cases hr : 0 < r
  · rw [computeBrakingCurve_eq_of_shift sq params ts D decel r profile hr hB]
    have hrd : 0 ≤ c0.speed * r := mul_nonneg (hnn c0 (by simp)).2 (le_of_lt hr)
    have hmap : ∀ p ∈ (c0 :: brest).map
        (fun p => (⟨max 0 (p.distance - c0.speed * r), p.speed⟩ : CurvePoint)),
        p.distance ≤ D := by
      intro p hp
      rcases List.mem_map.mp hp with ⟨q, hq, rfl⟩
      simp only [max_le_iff]
      exact ⟨hD, by linarith [hle q hq]⟩
    split_ifs with h2
    · intro p hp
      rcases List.mem_cons.mp hp with h | h
      · subst h
        exact hD
      · exact hmap p h
    · exact hmap
  · rw [computeBrakingCurve_no_shift sq params ts D decel r profile hr, hB]
    exact hle

theorem computeBrakingCurve_mem_distance_lt (sq : ℚ → ℚ) (params : TrainParameters)
    (ts D decel r : ℚ) (profile : List GradientPoint)
    (hsqp : ∀ q, 0 < q → 0 < sq q) (_hts : 0 ≤ ts) (hD : 0 < D) (hr : 0 < r) :
    ∀ p ∈ computeBrakingCurve sq params ts D decel r profile, p.distance < D := by
  obtain ⟨ph, resth, hB, hps⟩ := brakingLoop_head_speed_pos sq params decel
    (max 1 (D / 500)) profile (D.ceil.toNat + 1) D ts [⟨D, ts⟩] hsqp
    (le_max_left _ _) (Nat.succ_pos _) hD
  have hle : ∀ p ∈ ph :: resth, p.distance ≤ D := by
    rw [← hB]
    exact brakingLoop_mem_distance_le sq params decel (max 1 (D / 500)) profile
      (D.ceil.toNat + 1) D ts [⟨D, ts⟩] D (le_max_left _ _) (le_of_lt hD) (le_refl D)
      (by intro p hp; simp at hp; subst hp; rfl)
  rw [computeBrakingCurve_eq_of_shift sq params ts D decel r profile hr hB]
  have hrd : 0 < ph.speed * r := mul_pos hps hr
  have hmap : ∀ p ∈ (ph :: resth).map
      (fun p => (⟨max 0 (p.distance - ph.speed * r), p.speed⟩ : CurvePoint)),
      p.distance < D := by
    intro p hp
    rcases List.mem_map.mp hp with ⟨q, hq, rfl⟩
    simp only [max_lt_iff]
    exact ⟨hD, by linarith [hle q hq]⟩
  split_ifs with h2
  · intro p hp
    rcases List.mem_cons.mp hp with h | h
    · subst h
      exact hD
    · exact hmap p h
  · exact hmap

/-! Lemmas about curve interpolation and the supervision classifier. -/

theorem interpLoop_eq_none_of_lt (x : ℚ) :
    ∀ curve : List CurvePoint, (∀ p ∈ curve, p.distance < x) → interpLoop x curve = none := by
  intro curve
  induction curve with
  | nil => intro _; rfl
  | cons p rest ih =>
    intro h
    match rest with
    | [] => rfl
    | q :: rs =>
      unfold interpLoop
      rw [if_neg, ih]
      · intro a ha
        exact h a (List.mem_cons_of_mem p ha)
      · push_neg
        intro _
        exact h q (by simp)

theorem chainLt_head_lt_getLast (a : CurvePoint) :
    ∀ (l : List CurvePoint) (b : CurvePoint),
      ((a :: l).map (·.distance)).Chain' (· < ·) → l.getLast? = some b →
      a.distance < b.distance := by
  intro l
  induction l generalizing a with
  | nil => intro b _ hb; simp at hb
  | cons c l'' ih =>
    intro b hchain hb
    rw [List.map_cons, List.map_cons, List.chain'_cons] at hchain
    match l'' with
    | [] =>
      simp at hb
      subst hb
      exact hchain.1
    | d :: ls =>
      have hb2 : (d :: ls).getLast? = some b := by
        rw [List.getLast?_cons_cons] at hb
        exact hb
      have := ih c b (by rw [List.map_cons]; exact hchain.2) hb2
      exact lt_trans hchain.1 this

theorem interpLoop_at_last (x : ℚ) :
    ∀ (l : List CurvePoint) (p q pl : CurvePoint),
      ((p :: q :: l).map (·.distance)).Chain' (· < ·) →
      (q :: l).getLast? = some pl → x = pl.distance →
      interpLoop x (p :: q :: l) = some pl.speed := by
  intro l
  induction l with
  | nil =>
    intro p q pl hchain hlast hx
    have hqpl : q = pl := by simpa using hlast
    subst hqpl
    rw [List.map_cons, List.map_cons, List.chain'_cons] at hchain
    have hpq : p.distance < q.distance := by simpa using hchain.1
    unfold interpLoop
    rw [if_pos ⟨by rw [hx]; exact le_of_lt hpq, le_of_eq hx⟩]
    congr 1
    rw [hx]
    have hne : q.distance - p.distance ≠ 0 := by
      intro h
      have h2 : q.distance = p.distance := by
        have := sub_eq_zero.mp h
        linarith
      linarith
    field_simp
  | cons r rs ih =>
    intro p q pl hchain hlast hx
    have hchain2 : ((q :: r :: rs).map (·.distance)).Chain' (· < ·) := by
      have h2 := hchain.tail
      simpa using h2
    have hlast2 : (r :: rs).getLast? = some pl := by
      rw [List.getLast?_cons_cons] at hlast
      exact hlast
    have hq_lt : q.distance < pl.distance :=
      chainLt_head_lt_getLast q (r :: rs) pl hchain2 hlast2
    unfold interpLoop
    rw [if_neg]
    · exact ih q r pl hchain2 hlast2 hx
    · push_neg
      intro _
      rw [hx]
      exact hq_lt

theorem speedAtDist_eq_last_of_lt (c0 : CurvePoint) (rest : List CurvePoint) (x : ℚ)
    {pl : CurvePoint}
    (hlt : ∀ p ∈ c0 :: rest, p.distance < x)
    (hlast : (c0 :: rest).getLast? = some pl) :
    speedAtDist (c0 :: rest) x = some pl.speed := by
  show (match interpLoop x (c0 :: rest) with
    | some v => some v
    | none =>
      if x ≤ c0.distance then some c0.speed
      else some ((c0 :: rest).getLast (by simp)).speed) = some pl.speed
  rw [interpLoop_eq_none_of_lt x (c0 :: rest) hlt]
  simp only
  rw [if_neg (not_le.mpr (hlt c0 (by simp)))]
  congr 1
  have h2 : (c0 :: rest).getLast (by simp) = pl := by
    rw [List.getLast_eq_iff_getLast?_eq_some]
    exact hlast
  rw [h2]

theorem speedAtDist_at_last (c0 q : CurvePoint) (rest : List CurvePoint) (x : ℚ)
    {pl : CurvePoint}
    (hchain : ((c0 :: q :: rest).map (·.distance)).Chain' (· < ·))
    (hlast : (q :: rest).getLast? = some pl) (hx : x = pl.distance) :
    speedAtDist (c0 :: q :: rest) x = some pl.speed := by
  show (match interpLoop x (c0 :: q :: rest) with
    | some v => some v
    | none =>
      if x ≤ c0.distance then some c0.speed
      else some ((c0 :: q :: rest).getLast (by simp)).speed) = some pl.speed
  rw [interpLoop_at_last x rest c0 q pl hchain hlast hx]

theorem speedAtDist_target_zero (sq : ℚ → ℚ) (params : TrainParameters)
    (D decel r x : ℚ) (profile : List GradientPoint)
    (hsq : ∀ q, 0 ≤ sq q) (hsqp : ∀ q, 0 < q → 0 < sq q)
    (hD : 0 ≤ D) (hx : D ≤ x) :
    speedAtDist (computeBrakingCurve sq params 0 D decel r profile) x = some 0 := by
  obtain ⟨pl, hpl, hpls⟩ : ∃ pl, (computeBrakingCurve sq params 0 D decel r profile).getLast? =
      some pl ∧ pl.speed = 0 := by
    have h := computeBrakingCurve_getLast?_speed sq params 0 D decel r profile
    match hL : (computeBrakingCurve sq params 0 D decel r profile).getLast? with
    | some pl =>
      rw [hL] at h
      exact ⟨pl, rfl, by simpa using h⟩
    | none =>
      rw [hL] at h
      simp at h
  suffices hgoal : speedAtDist (computeBrakingCurve sq params 0 D decel r profile) x =
      some pl.speed by
    rw [hgoal, hpls]
  rcases eq_or_lt_of_le hx with hxD | hxD
  · -- query exactly at the target distance
    rcases eq_or_lt_of_le hD with hD0 | hD0
    · -- degenerate target: the curve is the single point (0, 0)
      have hcurve : computeBrakingCurve sq params 0 D decel r profile = [⟨0, 0⟩] := by
        rw [← hD0]
        simp only [computeBrakingCurve]
        have hloop : brakingLoop sq params decel (max 1 ((0:ℚ) / 500)) profile
            ((0:ℚ).ceil.toNat + 1) 0 0 [⟨0, 0⟩] = [⟨0, 0⟩] := by
          norm_num [brakingLoop]
        rw [hloop]
        split_ifs with h1
        · norm_num
        · rfl
      have hpl2 : pl = ⟨0, 0⟩ := by
        rw [hcurve] at hpl
        simp at hpl
        exact hpl.symm
      rw [hcurve, hpl2]
      show (if x ≤ ((⟨0, 0⟩ : CurvePoint)).distance
        then some ((⟨0, 0⟩ : CurvePoint)).speed
        else some (([(⟨0, 0⟩ : CurvePoint)]).getLast (by simp)).speed) =
          some ((⟨0, 0⟩ : CurvePoint)).speed
      split_ifs <;> rfl
    · -- query at the target of a positive-distance curve
      by_cases hr : 0 < r
      · have hlt := computeBrakingCurve_mem_distance_lt sq params 0 D decel r profile
          hsqp (le_refl 0) hD0 hr
        obtain ⟨c0, crest, hc⟩ := List.exists_cons_of_ne_nil
          (computeBrakingCurve_ne_nil sq params 0 D decel r profile)
        rw [hc] at hpl hlt ⊢
        refine speedAtDist_eq_last_of_lt c0 crest x ?_ hpl
        intro p hp
        rw [← hxD]
        exact hlt p hp
      · -- no reaction shift: the query sits exactly on the last curve point
        rw [computeBrakingCurve_no_shift sq params 0 D decel r profile hr] at hpl ⊢
        have hchain := brakingLoop_chain sq params decel (max 1 (D / 500)) profile
          (D.ceil.toNat + 1) D 0 [⟨D, 0⟩] (le_max_left _ _) (by simp)
          ⟨⟨D, 0⟩, [], rfl, rfl⟩
        obtain ⟨ph, resth, hB, hps⟩ := brakingLoop_head_speed_pos sq params decel
          (max 1 (D / 500)) profile (D.ceil.toNat + 1) D 0 [⟨D, 0⟩] hsqp
          (le_max_left _ _) (Nat.succ_pos _) hD0
        have hlastB : (brakingLoop sq params decel (max 1 (D / 500)) profile
            (D.ceil.toNat + 1) D 0 [⟨D, 0⟩]).getLast? = some ⟨D, 0⟩ :=
          brakingLoop_getLast? sq params decel (max 1 (D / 500)) profile
            (D.ceil.toNat + 1) D 0 [⟨D, 0⟩] (by rfl)
        match hB2 : resth with
        | [] =>
          rw [hB] at hlastB
          simp only [List.getLast?_singleton, Option.some_inj] at hlastB
          rw [hlastB] at hps
          norm_num at hps
        | q :: rest2 =>
          rw [hB] at hpl hchain ⊢
          have hlast2 : (q :: rest2).getLast? = some pl := by
            rw [List.getLast?_cons_cons] at hpl
            exact hpl
          refine speedAtDist_at_last ph q rest2 x hchain.1 hlast2 ?_
          have hplD : pl = ⟨D, 0⟩ := by
            rw [hB, List.getLast?_cons_cons] at hlastB
            rw [hlastB] at hlast2
            exact (Option.some_inj.mp hlast2).symm
          rw [hplD, ← hxD]
  · -- query strictly beyond the target distance
    have hle := computeBrakingCurve_mem_distance_le sq params 0 D decel r profile
      hsq (le_refl 0) hD
    obtain ⟨c0, crest, hc⟩ := List.exists_cons_of_ne_nil
      (computeBrakingCurve_ne_nil sq params 0 D decel r profile)
    rw [hc] at hpl hle ⊢
    refine speedAtDist_eq_last_of_lt c0 crest x ?_ hpl
    intro p hp
    exact lt_of_le_of_lt (hle p hp) hxD


/-- Central lemma: the classifier queries the curve set at `distanceToTarget`,
but the curves carry allowed speeds on a position axis whose value at or
beyond the target distance is the target speed.  With target speed 0, any
non-negative current speed therefore classifies as `intervention` whenever
the query distance is at or beyond the target distance. -/
theorem getSupervisionStatus_at_or_beyond (sq : ℚ → ℚ) (params : TrainParameters)
    (currentSpeed D g x : ℚ) (profile : List GradientPoint)
    (hsq : ∀ q, 0 ≤ sq q) (hsqp : ∀ q, 0 < q → 0 < sq q)
    (hcs : 0 ≤ currentSpeed) (hD : 0 ≤ D) (hx : D ≤ x) :
    getSupervisionStatus currentSpeed x (computeCurves sq params ⟨D, 0, g⟩ profile) =
      .intervention := by
  unfold getSupervisionStatus computeCurves
  simp only
  rw [speedAtDist_target_zero sq params D params.emergencyBrakeDecel
    (params.reactionTimeEmergency * (1/2)) x profile hsq hsqp hD hx]
  simp [geAllowed, hcs]

end RailSim

namespace RailSim

/-! Claim C4 and C1 theorems, and the curve-domination lemma behind C2. -/

/-- C4: every point of a curve produced by `computeBrakingCurve` with
non-negative target distance and target speed has distance ≥ 0 and speed
≥ 0, for any gradient profile, parameters, deceleration and reaction time.
In this exact-rational embedding every value is finite by construction;
the guards of the source (`vSquared < 0` abort, `v > 120` cap, the
`max(0, ...)` clamps) make every stored coordinate non-negative. -/
theorem braking_curve_points_nonneg (sq : ℚ → ℚ) (params : TrainParameters)
    (targetSpeed targetDistance deceleration reactionTime : ℚ)
    (profile : List GradientPoint)
    (hsq : ∀ q, 0 ≤ sq q) (hts : 0 ≤ targetSpeed) (hD : 0 ≤ targetDistance) :
    ∀ p ∈ computeBrakingCurve sq params targetSpeed targetDistance deceleration
      reactionTime profile, 0 ≤ p.distance ∧ 0 ≤ p.speed :=
  computeBrakingCurve_mem_nonneg sq params targetSpeed targetDistance deceleration
    reactionTime profile hsq hts hD

theorem braking_curve_points_nonneg_witness :
    (∀ q, 0 ≤ ratSqrt q) ∧ (0:ℚ) ≤ 0 ∧ (0:ℚ) ≤ 2 ∧
    ∀ p ∈ computeBrakingCurve ratSqrt DEFAULT_TRAIN_PARAMS 0 2 1 (3/4) [⟨0, 0⟩],
      0 ≤ p.distance ∧ 0 ≤ p.speed :=
  ⟨ratSqrt_nonneg, by norm_num, by norm_num,
    braking_curve_points_nonneg ratSqrt DEFAULT_TRAIN_PARAMS 0 2 1 (3/4) [⟨0, 0⟩]
      ratSqrt_nonneg (by norm_num) (by norm_num)⟩

/-- C1: with default parameters, `computeCurves({distance: 2000, speed: 0},
flat)` followed by `getSupervisionStatus(0.1, 5000)` yields `intervention`,
not the `normal` demanded by the spec and by the repository's own test.
The classifier queries the curve at `distanceToTarget`, but the curves
store allowed speeds on a position axis where everything at or beyond the
target distance evaluates to the target speed 0, so 0.1 ≥ 0 classifies as
`intervention`.  This holds for every non-negative square-root function,
in particular for the exact one; `ratSqrt` instantiates it. -/
theorem scenarioB_far_slow_is_intervention :
    getSupervisionStatus (1/10) 5000
      (computeCurves ratSqrt DEFAULT_TRAIN_PARAMS ⟨2000, 0, 0⟩ [⟨0, 0⟩]) =
      SupervisionStatus.intervention :=
  getSupervisionStatus_at_or_beyond ratSqrt DEFAULT_TRAIN_PARAMS (1/10) 2000 0 5000
    [⟨0, 0⟩] ratSqrt_nonneg (fun _ hq => ratSqrt_pos hq) (by norm_num) (by norm_num)
    (by norm_num)

/-- Same-deceleration curve domination: enlarging only the reaction time
moves every curve point toward the train (smaller distance) while keeping
its speed, because the two backward integrations are literally identical
and only the final distance shift `max(0, d − topSpeed·r)` differs. -/
theorem computeBrakingCurve_dominates (sq : ℚ → ℚ) (params : TrainParameters)
    (ts D decel r1 r2 : ℚ) (profile : List GradientPoint)
    (hsq : ∀ q, 0 ≤ sq q) (hts : 0 ≤ ts) (hD : 0 ≤ D)
    (hr1 : 0 ≤ r1) (hr12 : r1 ≤ r2) :
    ∀ p ∈ computeBrakingCurve sq params ts D decel r2 profile,
      ∃ p2 ∈ computeBrakingCurve sq params ts D decel r1 profile,
        p2.speed = p.speed ∧ p.distance ≤ p2.distance := by
  obtain ⟨c0, brest, hB⟩ := brakingLoop_exists_cons sq params decel (max 1 (D / 500))
    profile (D.ceil.toNat + 1) D ts [⟨D, ts⟩] (by simp)
  have hnn : ∀ p ∈ c0 :: brest, 0 ≤ p.distance ∧ 0 ≤ p.speed := by
    rw [← hB]
    exact brakingLoop_mem_nonneg sq params decel (max 1 (D / 500)) profile
      (D.ceil.toNat + 1) D ts [⟨D, ts⟩] hsq
      (by intro p hp; simp at hp; subst hp; exact ⟨hD, hts⟩)
  have hc0 := hnn c0 (by simp)
  by_cases hr2 : 0 < r2
  · have hrd12 : c0.speed * r1 ≤ c0.speed * r2 := mul_le_mul_of_nonneg_left hr12 hc0.2
    have hmem1 : ∀ q ∈ c0 :: brest,
        (⟨max 0 (q.distance - c0.speed * r1), q.speed⟩ : CurvePoint) ∈
          computeBrakingCurve sq params ts D decel r1 profile := by
      intro q hq
      by_cases hr1p : 0 < r1
      · rw [computeBrakingCurve_eq_of_shift sq params ts D decel r1 profile hr1p hB]
        have : (⟨max 0 (q.distance - c0.speed * r1), q.speed⟩ : CurvePoint) ∈
            (c0 :: brest).map
              (fun p => ⟨max 0 (p.distance - c0.speed * r1), p.speed⟩) :=
          List.mem_map.mpr ⟨q, hq, rfl⟩
        split_ifs with h2
        · exact List.mem_cons_of_mem _ this
        · exact this
      · have hr10 : r1 = 0 := le_antisymm (not_lt.mp hr1p) hr1
        rw [computeBrakingCurve_no_shift sq params ts D decel r1 profile hr1p, hB]
        have hq0 : (⟨max 0 (q.distance - c0.speed * r1), q.speed⟩ : CurvePoint) = q := by
          rw [hr10]
          simp only [mul_zero, sub_zero]
          rw [max_eq_right (hnn q hq).1]
        rw [hq0]
        exact hq
    rw [computeBrakingCurve_eq_of_shift sq params ts D decel r2 profile hr2 hB]
    have hmap2 : ∀ p ∈ (c0 :: brest).map
        (fun p => (⟨max 0 (p.distance - c0.speed * r2), p.speed⟩ : CurvePoint)),
        ∃ p2 ∈ computeBrakingCurve sq params ts D decel r1 profile,
          p2.speed = p.speed ∧ p.distance ≤ p2.distance := by
      intro p hp
      rcases List.mem_map.mp hp with ⟨q, hq, rfl⟩
      refine ⟨⟨max 0 (q.distance - c0.speed * r1), q.speed⟩, hmem1 q hq, rfl, ?_⟩
      exact max_le_max (le_refl 0) (by linarith)
    split_ifs with h2
    · intro p hp
      rcases List.mem_cons.mp hp with h | h
      · subst h
        refine ⟨⟨max 0 (c0.distance - c0.speed * r1), c0.speed⟩, hmem1 c0 (by simp),
          rfl, le_max_left _ _⟩
      · exact hmap2 p h
    · exact hmap2
  · have hr20 : r2 = 0 := le_antisymm (not_lt.mp hr2) (le_trans hr1 hr12)
    have hr10 : r1 = 0 := le_antisymm (by rw [← hr20]; exact hr12) hr1
    rw [computeBrakingCurve_no_shift sq params ts D decel r2 profile hr2,
      computeBrakingCurve_no_shift sq params ts D decel r1 profile (by rw [hr10]; norm_num)]
    intro p hp
    exact ⟨p, hp, rfl, le_refl _⟩

end RailSim

namespace RailSim

/-- Parameter set used as the concrete counterexample input for the curve
ordering claim; every square root taken during the integration is a perfect
rational square, so `ratSqrt` computes it exactly. -/
def orderingProbeParams : TrainParameters where
  length := 1
  mass := 1
  maxSpeed := 50
  maxAcceleration := 1
  serviceBrakeDecel := 1/50
  emergencyBrakeDecel := 2
  rotatingMassFactor := 1
  reactionTimeService := 1/2
  reactionTimeEmergency := 1/4

/-- Single unfolding step of the integration loop, with every numeric
subterm exposed as an equation so concrete runs can be evaluated by
`norm_num`. -/
theorem brakingLoop_step (sq : ℚ → ℚ) (params : TrainParameters)
    (decel stepSize : ℚ) (profile : List GradientPoint) (fuel : ℕ)
    (d v w v2 d2 : ℚ) (acc : List CurvePoint)
    (hd : 0 < d)
    (hw : brakingVSq params decel stepSize profile d v = w)
    (hw0 : ¬ w < 0)
    (hv2 : sq w = v2)
    (h120 : ¬ 120 < v2)
    (hd2 : d - min stepSize d = d2)
    (hd2n : 0 ≤ d2) :
    brakingLoop sq params decel stepSize profile (fuel + 1) d v acc =
      brakingLoop sq params decel stepSize profile fuel d2 v2 (⟨d2, v2⟩ :: acc) := by
  conv_lhs => rw [brakingLoop]
  rw [if_pos hd, hw, if_neg hw0, hv2, if_neg h120, hd2, max_eq_right hd2n]

theorem brakingLoop_exit (sq : ℚ → ℚ) (params : TrainParameters)
    (decel stepSize : ℚ) (profile : List GradientPoint) (fuel : ℕ)
    (d v : ℚ) (acc : List CurvePoint) (hd : ¬ 0 < d) :
    brakingLoop sq params decel stepSize profile (fuel + 1) d v acc = acc := by
  unfold brakingLoop
  rw [if_neg hd]

/-- Closed-form evaluation of a braking curve for `orderingProbeParams`
(rotating mass factor 1, flat gradient) at target distance 1, target speed
0: the integration takes a single step of length 1 reaching speed
`v1 = sqrt(2·decel)` and the reaction shift moves the target point to
`d1 = 1 − v1·r`. -/
theorem probe_curve_eval (decel r v1 d1 : ℚ)
    (hdec : 1/100 ≤ decel) (hv1 : 0 ≤ v1) (hsq : v1 * v1 = 2 * decel)
    (h120 : v1 ≤ 120) (hr : 0 < r) (hd1 : 1 - v1 * r = d1) (hd1n : 0 ≤ d1) :
    computeBrakingCurve ratSqrt orderingProbeParams 0 1 decel r [⟨0, 0⟩] =
      [⟨0, v1⟩, ⟨d1, 0⟩] := by
  have hgrad : getGradientAtProfile [(⟨0, 0⟩ : GradientPoint)] 1 = 0 := by
    norm_num [getGradientAtProfile, gradLoop]
  have haeff : effectiveDeceleration orderingProbeParams decel 0 = decel := by
    unfold effectiveDeceleration
    simp only [orderingProbeParams]
    rw [show gravG * 0 / 1000 = 0 by norm_num, add_zero, div_one]
    exact max_eq_right hdec
  have hvsq : brakingVSq orderingProbeParams decel (max 1 ((1:ℚ)/500)) [⟨0, 0⟩] 1 0 =
      2 * decel := by
    unfold brakingVSq
    rw [hgrad, haeff]
    norm_num
  have hfuel : (1:ℚ).ceil.toNat + 1 = 2 := by norm_num [Rat.ceil]
  have hB : brakingLoop ratSqrt orderingProbeParams decel (max 1 ((1:ℚ)/500)) [⟨0, 0⟩]
      ((1:ℚ).ceil.toNat + 1) 1 0 [⟨1, 0⟩] = [⟨0, v1⟩, ⟨1, 0⟩] := by
    rw [hfuel, show (2:ℕ) = 1 + 1 from rfl]
    rw [brakingLoop_step ratSqrt orderingProbeParams decel (max 1 ((1:ℚ)/500)) [⟨0, 0⟩]
      1 1 0 (2 * decel) v1 0 [⟨1, 0⟩] (by norm_num) hvsq (by push_neg; linarith)
      (ratSqrt_eq_of_sq hv1 hsq) (by push_neg; linarith) (by norm_num) (le_refl 0)]
    rw [show (1:ℕ) = 0 + 1 from rfl]
    exact brakingLoop_exit ratSqrt orderingProbeParams decel (max 1 ((1:ℚ)/500))
      [⟨0, 0⟩] 0 0 v1 [⟨0, v1⟩, ⟨1, 0⟩] (by norm_num)
  rw [computeBrakingCurve_eq_of_shift ratSqrt orderingProbeParams 0 1 decel r
    [⟨0, 0⟩] hr hB]
  have hmax0 : max 0 ((0:ℚ) - v1 * r) = 0 :=
    max_eq_left (by nlinarith)
  have hmax1 : max 0 ((1:ℚ) - v1 * r) = d1 := by
    rw [hd1]
    exact max_eq_right hd1n
  rw [if_neg (by simp only; rw [hmax0]; norm_num)]
  simp only [List.map_cons, List.map_nil]
  rw [hmax0, hmax1]

/-- C2 counterexample: for the curve set of `computeCurves` at target
distance 1, target speed 0, flat gradient and `orderingProbeParams`, the
interpolated (pairwise-bracketed) allowed speed at distance 0 is 1/5 on the
permitted curve but 2 on the warning curve, refuting the claimed ordering
`indication ≥ permitted ≥ warning ≥ EBD`. -/
theorem curve_ordering_counterexample :
    interpLoop 0
      (computeCurves ratSqrt orderingProbeParams ⟨1, 0, 0⟩ [⟨0, 0⟩]).permitted =
        some (1/5) ∧
    interpLoop 0
      (computeCurves ratSqrt orderingProbeParams ⟨1, 0, 0⟩ [⟨0, 0⟩]).warning =
        some 2 ∧
    ¬ ((1:ℚ)/5 ≥ 2) := by
  have hperm : (computeCurves ratSqrt orderingProbeParams ⟨1, 0, 0⟩ [⟨0, 0⟩]).permitted =
      [⟨0, 1/5⟩, ⟨9/10, 0⟩] :=
    probe_curve_eval (1/50) (1/2) (1/5) (9/10) (by norm_num) (by norm_num)
      (by norm_num) (by norm_num) (by norm_num) (by norm_num) (by norm_num)
  have hwarn : (computeCurves ratSqrt orderingProbeParams ⟨1, 0, 0⟩ [⟨0, 0⟩]).warning =
      [⟨0, 2⟩, ⟨1/2, 0⟩] :=
    probe_curve_eval 2 (1/4) 2 (1/2) (by norm_num) (by norm_num) (by norm_num)
      (by norm_num) (by norm_num) (by norm_num) (by norm_num)
  refine ⟨?_, ?_, by norm_num⟩
  · show interpLoop 0 (computeCurves ratSqrt orderingProbeParams ⟨1, 0, 0⟩
      [⟨0, 0⟩]).permitted = some (1/5)
    rw [hperm]
    unfold interpLoop
    rw [if_pos (by norm_num)]
    norm_num
  · show interpLoop 0 (computeCurves ratSqrt orderingProbeParams ⟨1, 0, 0⟩
      [⟨0, 0⟩]).warning = some 2
    rw [hwarn]
    unfold interpLoop
    rw [if_pos (by norm_num)]
    norm_num

/-- C2 amended: between curves that share a deceleration the ordering is
the reverse of the claimed one — the curve with the larger reaction time
(warning versus EBD, indication versus permitted) is pointwise dominated:
each of its points reappears on the shorter-reaction curve with the same
speed at an equal or greater distance.  Across different decelerations no
ordering holds in general. -/
theorem curve_ordering_same_decel_reversed (sq : ℚ → ℚ) (params : TrainParameters)
    (target : BrakingTarget) (profile : List GradientPoint)
    (hsq : ∀ q, 0 ≤ sq q) (hts : 0 ≤ target.targetSpeed)
    (hD : 0 ≤ target.targetDistance)
    (hre : 0 ≤ params.reactionTimeEmergency) (hrs : 0 ≤ params.reactionTimeService) :
    (∀ p ∈ (computeCurves sq params target profile).warning,
      ∃ p2 ∈ (computeCurves sq params target profile).emergencyBrake,
        p2.speed = p.speed ∧ p.distance ≤ p2.distance) ∧
    (∀ p ∈ (computeCurves sq params target profile).indication,
      ∃ p2 ∈ (computeCurves sq params target profile).permitted,
        p2.speed = p.speed ∧ p.distance ≤ p2.distance) := by
  constructor
  · exact computeBrakingCurve_dominates sq params target.targetSpeed
      target.targetDistance params.emergencyBrakeDecel
      (params.reactionTimeEmergency * (1/2)) params.reactionTimeEmergency profile
      hsq hts hD (by linarith) (by linarith)
  · exact computeBrakingCurve_dominates sq params target.targetSpeed
      target.targetDistance params.serviceBrakeDecel
      params.reactionTimeService (params.reactionTimeService + 4) profile
      hsq hts hD hrs (by linarith)

theorem curve_ordering_same_decel_reversed_witness :
    (∀ q, 0 ≤ ratSqrt q) ∧
    (0:ℚ) ≤ (0:ℚ) ∧ (0:ℚ) ≤ 1 ∧ (0:ℚ) ≤ 1/4 ∧ (0:ℚ) ≤ 1/2 ∧
    ((∀ p ∈ (computeCurves ratSqrt orderingProbeParams ⟨1, 0, 0⟩ [⟨0, 0⟩]).warning,
      ∃ p2 ∈ (computeCurves ratSqrt orderingProbeParams ⟨1, 0, 0⟩
          [⟨0, 0⟩]).emergencyBrake,
        p2.speed = p.speed ∧ p.distance ≤ p2.distance) ∧
    (∀ p ∈ (computeCurves ratSqrt orderingProbeParams ⟨1, 0, 0⟩ [⟨0, 0⟩]).indication,
      ∃ p2 ∈ (computeCurves ratSqrt orderingProbeParams ⟨1, 0, 0⟩ [⟨0, 0⟩]).permitted,
        p2.speed = p.speed ∧ p.distance ≤ p2.distance)) :=
  ⟨ratSqrt_nonneg, by norm_num, by norm_num, by norm_num, by norm_num,
    curve_ordering_same_decel_reversed ratSqrt orderingProbeParams ⟨1, 0, 0⟩ [⟨0, 0⟩]
      ratSqrt_nonneg (by norm_num) (by norm_num)
      (by norm_num [orderingProbeParams]) (by norm_num [orderingProbeParams])⟩

end RailSim

/- ## Track network: nodes, edges, signals (src/src/types/topology.ts,
   src/src/main.ts TrackNetwork) -/

namespace RailSim

inductive Dir where
  | forward
  | reverse
deriving DecidableEq

inductive Aspect where
  | clear
  | caution
  | stop
deriving DecidableEq

inductive SignalKind where
  | main
  | distant
  | shunting
  | speed
deriving DecidableEq

structure PlacedSignal where
  signalId : String
  offset : ℚ
  direction : Dir
  kind : SignalKind
  aspect : Aspect
deriving DecidableEq

structure SpeedLimit where
  startOffset : ℚ
  endOffset : ℚ
  speedMs : ℚ
deriving DecidableEq

inductive NodeType where
  | endpoint
  | switch
  | buffer
deriving DecidableEq

structure TopoNode where
  id : String
  position : Vec2
  type : NodeType
  connectedEdges : List String

structure TopoEdge where
  id : String
  startNodeId : String
  endNodeId : String
  length : ℚ
  polyline : List Vec2
  gradientProfile : List GradientPoint
  signals : List PlacedSignal
  speedLimits : List SpeedLimit

structure RouteSegment where
  edgeId : String
  direction : Dir
  startOffset : ℚ
  endOffset : ℚ
deriving DecidableEq

structure StationInfo where
  id : String
  name : String
  position : Vec2

structure TrackNetwork where
  nodes : List TopoNode
  edges : List TopoEdge
  stations : List StationInfo

def getNode (net : TrackNetwork) (id : String) : Option TopoNode :=
  net.nodes.find? (fun n => n.id = id)

def getEdge (net : TrackNetwork) (id : String) : Option TopoEdge :=
  net.edges.find? (fun e => e.id = id)

def getAdjacentEdges (net : TrackNetwork) (nodeId : String) : List TopoEdge :=
  match getNode net nodeId with
  | none => []
  | some node => node.connectedEdges.filterMap (fun id => getEdge net id)

/-- JavaScript `Array.prototype.indexOf`: the index of the first occurrence,
`none` standing for -1. -/
def jsIndexOf (target : String) : List String → Option ℕ
  | [] => none
  | x :: xs => if x = target then some 0 else (jsIndexOf target xs).map (· + 1)

/-- The reset loop of updateSignalAspects: every signal of every edge to
clear. -/
def clearSignals (net : TrackNetwork) : TrackNetwork :=
  { net with edges := net.edges.map (fun e =>
      { e with signals := e.signals.map (fun s => { s with aspect := Aspect.clear }) }) }

/-- The mutation loop shared by the stop and caution passes: on the edge
with the given id, every signal facing `direction` takes aspect `a`. -/
def setSignalsOnEdge (net : TrackNetwork) (edgeId : String) (direction : Dir)
    (a : Aspect) : TrackNetwork :=
  { net with edges := net.edges.map (fun e =>
      if e.id = edgeId then
        { e with signals := e.signals.map (fun s =>
            if s.direction = direction then { s with aspect := a } else s) }
      else e) }

def updateSignalAspects (net : TrackNetwork) (occupiedEdgeId : Option String)
    (routeEdgeIds : List String) (direction : Dir) : TrackNetwork :=
  match occupiedEdgeId with
  | none => clearSignals net
  | some occId =>
    match jsIndexOf occId routeEdgeIds with
    | none => clearSignals net
    | some occupiedIndex =>
      let afterStop :=
        setSignalsOnEdge (clearSignals net) occId direction Aspect.stop
      if 0 < occupiedIndex then
        setSignalsOnEdge afterStop (routeEdgeIds.getD (occupiedIndex - 1) "")
          direction Aspect.caution
      else afterStop

end RailSim

namespace RailSim

theorem jsIndexOf_eq_none_iff (t : String) (l : List String) :
    jsIndexOf t l = none ↔ t ∉ l := by
  induction l with
  | nil => simp [jsIndexOf]
  | cons x xs ih =>
    by_cases hx : x = t
    · simp [jsIndexOf, hx]
    · simp only [jsIndexOf, if_neg hx, Option.map_eq_none', List.mem_cons, ih]
      constructor
      · rintro hn (h | h)
        · exact hx h.symm
        · exact hn h
      · intro hn
        exact fun h => hn (Or.inr h)

theorem jsIndexOf_lt_ne (t : String) (l : List String) (idx : ℕ)
    (h : jsIndexOf t l = some idx) : ∀ j < idx, l.getD j "" ≠ t := by
  induction l generalizing idx with
  | nil => simp [jsIndexOf] at h
  | cons x xs ih =>
    by_cases hx : x = t
    · rw [jsIndexOf, if_pos hx] at h
      obtain rfl : (0 : ℕ) = idx := Option.some.inj h
      intro j hj
      omega
    · rw [jsIndexOf, if_neg hx] at h
      obtain ⟨i, hi, rfl⟩ := Option.map_eq_some'.mp h
      intro j hj
      cases j with
      | zero => simpa using hx
      | succ j' =>
        have := ih i hi j' (by omega)
        simpa using this

theorem clearSignals_signals (net : TrackNetwork) :
    ∀ e ∈ (clearSignals net).edges, ∀ s ∈ e.signals, s.aspect = Aspect.clear := by
  intro e he s hs
  simp only [clearSignals, List.mem_map] at he
  obtain ⟨e₀, -, rfl⟩ := he
  simp only [List.mem_map] at hs
  obtain ⟨s₀, -, rfl⟩ := hs
  rfl

theorem setSignalsOnEdge_char (net : TrackNetwork) (eid : String) (dir : Dir)
    (a : Aspect) :
    ∀ e ∈ (setSignalsOnEdge net eid dir a).edges,
      ∃ e₀ ∈ net.edges, e₀.id = e.id ∧
        (e₀.id = eid →
          ∀ s ∈ e.signals, (s.direction = dir → s.aspect = a) ∧
            (s.direction ≠ dir → s ∈ e₀.signals)) ∧
        (e₀.id ≠ eid → e = e₀) := by
  intro e he
  simp only [setSignalsOnEdge, List.mem_map] at he
  obtain ⟨e₀, he₀, rfl⟩ := he
  by_cases h : e₀.id = eid
  · rw [if_pos h]
    refine ⟨e₀, he₀, rfl, fun _ => ?_, fun hc => absurd h hc⟩
    intro s hs
    simp only [List.mem_map] at hs
    obtain ⟨s₀, hs₀, rfl⟩ := hs
    by_cases hd : s₀.direction = dir
    · rw [if_pos hd]
      exact ⟨fun _ => rfl, fun hc => absurd hd hc⟩
    · rw [if_neg hd]
      exact ⟨fun hc => absurd hc hd, fun _ => hs₀⟩
  · rw [if_neg h]
    exact ⟨e₀, he₀, rfl, fun hc => absurd hc h, fun _ => rfl⟩

theorem updateSignalAspects_some_eq (net : TrackNetwork) (occId : String)
    (routeEdgeIds : List String) (dir : Dir) (idx : ℕ)
    (hidx : jsIndexOf occId routeEdgeIds = some idx) :
    updateSignalAspects net (some occId) routeEdgeIds dir =
      if 0 < idx then
        setSignalsOnEdge (setSignalsOnEdge (clearSignals net) occId dir Aspect.stop)
          (routeEdgeIds.getD (idx - 1) "") dir Aspect.caution
      else setSignalsOnEdge (clearSignals net) occId dir Aspect.stop := by
  simp only [updateSignalAspects, hidx]

end RailSim

namespace RailSim

theorem stopPass_spec (net : TrackNetwork) (occId : String) (dir : Dir) :
    (∀ e ∈ (setSignalsOnEdge (clearSignals net) occId dir Aspect.stop).edges,
       e.id = occId → ∀ s ∈ e.signals, s.direction = dir → s.aspect = Aspect.stop) ∧
    (∀ e ∈ (setSignalsOnEdge (clearSignals net) occId dir Aspect.stop).edges,
       ∀ s ∈ e.signals, ¬(e.id = occId ∧ s.direction = dir) →
         s.aspect = Aspect.clear) := by
  constructor
  · intro e he heid s hs hsd
    obtain ⟨e₀, he₀, hid, hpos, -⟩ :=
      setSignalsOnEdge_char (clearSignals net) occId dir Aspect.stop e he
    exact (hpos (hid.trans heid) s hs).1 hsd
  · intro e he s hs hno
    obtain ⟨e₀, he₀, hid, hpos, hneg⟩ :=
      setSignalsOnEdge_char (clearSignals net) occId dir Aspect.stop e he
    by_cases h : e₀.id = occId
    · have heid : e.id = occId := hid ▸ h
      have hsd : s.direction ≠ dir := fun hd => hno ⟨heid, hd⟩
      exact clearSignals_signals net e₀ he₀ s ((hpos h s hs).2 hsd)
    · have heq := hneg h
      subst heq
      exact clearSignals_signals net e he₀ s hs

/-- C5: after updateSignalAspects with an occupied edge that occurs in the
route (first occurrence at index idx), every signal on the occupied edge
facing the given direction shows stop, every signal facing that direction
on the route edge preceding the occupied one shows caution, and every
other signal in the network shows clear. -/
theorem updateSignalAspects_occupied_spec (net : TrackNetwork) (occId : String)
    (routeEdgeIds : List String) (dir : Dir) (idx : ℕ)
    (hidx : jsIndexOf occId routeEdgeIds = some idx) :
    (∀ e ∈ (updateSignalAspects net (some occId) routeEdgeIds dir).edges,
       e.id = occId → ∀ s ∈ e.signals, s.direction = dir → s.aspect = Aspect.stop) ∧
    (∀ e ∈ (updateSignalAspects net (some occId) routeEdgeIds dir).edges,
       0 < idx → e.id = routeEdgeIds.getD (idx - 1) "" →
       ∀ s ∈ e.signals, s.direction = dir → s.aspect = Aspect.caution) ∧
    (∀ e ∈ (updateSignalAspects net (some occId) routeEdgeIds dir).edges,
       ∀ s ∈ e.signals, ¬(e.id = occId ∧ s.direction = dir) →
       ¬(0 < idx ∧ e.id = routeEdgeIds.getD (idx - 1) "" ∧ s.direction = dir) →
       s.aspect = Aspect.clear) := by
  rw [updateSignalAspects_some_eq net occId routeEdgeIds dir idx hidx]
  by_cases h0 : 0 < idx
  · rw [if_pos h0]
    have hprev : routeEdgeIds.getD (idx - 1) "" ≠ occId :=
      jsIndexOf_lt_ne occId routeEdgeIds idx hidx (idx - 1) (by omega)
    refine ⟨?_, ?_, ?_⟩
    · intro e he heid s hs hsd
      obtain ⟨e₁, he₁, hid₁, -, hneg₁⟩ :=
        setSignalsOnEdge_char _ (routeEdgeIds.getD (idx - 1) "") dir Aspect.caution e he
      have h₁ : e₁.id ≠ routeEdgeIds.getD (idx - 1) "" := by
        rw [hid₁, heid]
        exact fun hc => hprev hc.symm
      have heq := hneg₁ h₁
      subst heq
      exact (stopPass_spec net occId dir).1 e he₁ (hid₁.symm.trans heid) s hs hsd
    · intro e he _ heprev s hs hsd
      obtain ⟨e₁, he₁, hid₁, hpos₁, -⟩ :=
        setSignalsOnEdge_char _ (routeEdgeIds.getD (idx - 1) "") dir Aspect.caution e he
      exact (hpos₁ (hid₁.trans heprev) s hs).1 hsd
    · intro e he s hs hno1 hno2
      obtain ⟨e₁, he₁, hid₁, hpos₁, hneg₁⟩ :=
        setSignalsOnEdge_char _ (routeEdgeIds.getD (idx - 1) "") dir Aspect.caution e he
      by_cases h₁ : e₁.id = routeEdgeIds.getD (idx - 1) ""
      · have heprev : e.id = routeEdgeIds.getD (idx - 1) "" := hid₁ ▸ h₁
        have hsd : s.direction ≠ dir := fun hd => hno2 ⟨h0, heprev, hd⟩
        exact (stopPass_spec net occId dir).2 e₁ he₁ s ((hpos₁ h₁ s hs).2 hsd)
          (fun hc => hsd hc.2)
      · have heq := hneg₁ h₁
        subst heq
        exact (stopPass_spec net occId dir).2 e he₁ s hs hno1
  · rw [if_neg h0]
    refine ⟨(stopPass_spec net occId dir).1, ?_, ?_⟩
    · intro e _ h0'
      exact absurd h0' h0
    · intro e he s hs hno1 _
      exact (stopPass_spec net occId dir).2 e he s hs hno1

end RailSim

namespace RailSim

/-- A two-edge network with signals in both directions and stale aspects,
used to exercise updateSignalAspects at concrete inputs. -/
def signalProbeNet : TrackNetwork where
  nodes := [⟨"N1", ⟨0, 0⟩, NodeType.buffer, ["E1"]⟩,
    ⟨"N2", ⟨100, 0⟩, NodeType.endpoint, ["E1", "E2"]⟩,
    ⟨"N3", ⟨200, 0⟩, NodeType.buffer, ["E2"]⟩]
  edges := [⟨"E1", "N1", "N2", 100, [⟨0, 0⟩, ⟨100, 0⟩], [⟨0, 0⟩],
      [⟨"SA", 10, Dir.forward, SignalKind.main, Aspect.clear⟩,
       ⟨"SB", 20, Dir.reverse, SignalKind.main, Aspect.stop⟩], []⟩,
    ⟨"E2", "N2", "N3", 100, [⟨100, 0⟩, ⟨200, 0⟩], [⟨0, 0⟩],
      [⟨"SC", 30, Dir.forward, SignalKind.main, Aspect.caution⟩,
       ⟨"SD", 40, Dir.reverse, SignalKind.main, Aspect.clear⟩], []⟩]
  stations := [⟨"STA1", "Alpha", ⟨0, 0⟩⟩, ⟨"STA2", "Omega", ⟨200, 0⟩⟩]

theorem updateSignalAspects_occupied_spec_witness :
    (∀ e ∈ (updateSignalAspects signalProbeNet (some "E2") ["E1", "E2"]
        Dir.forward).edges,
       e.id = "E2" → ∀ s ∈ e.signals, s.direction = Dir.forward →
         s.aspect = Aspect.stop) ∧
    (∀ e ∈ (updateSignalAspects signalProbeNet (some "E2") ["E1", "E2"]
        Dir.forward).edges,
       0 < 1 → e.id = ["E1", "E2"].getD (1 - 1) "" →
       ∀ s ∈ e.signals, s.direction = Dir.forward → s.aspect = Aspect.caution) ∧
    (∀ e ∈ (updateSignalAspects signalProbeNet (some "E2") ["E1", "E2"]
        Dir.forward).edges,
       ∀ s ∈ e.signals, ¬(e.id = "E2" ∧ s.direction = Dir.forward) →
       ¬(0 < 1 ∧ e.id = ["E1", "E2"].getD (1 - 1) "" ∧ s.direction = Dir.forward) →
       s.aspect = Aspect.clear) :=
  updateSignalAspects_occupied_spec signalProbeNet "E2" ["E1", "E2"]
    Dir.forward 1 (by decide)

/-- C10: when updateSignalAspects is called with no occupied edge, or with
an occupied edge id that does not occur in the route edge ids, every signal
of the resulting network shows clear. -/
theorem updateSignalAspects_absent_all_clear (net : TrackNetwork)
    (occupiedEdgeId : Option String) (routeEdgeIds : List String) (dir : Dir)
    (h : occupiedEdgeId = none ∨
      ∃ occId, occupiedEdgeId = some occId ∧ occId ∉ routeEdgeIds) :
    ∀ e ∈ (updateSignalAspects net occupiedEdgeId routeEdgeIds dir).edges,
      ∀ s ∈ e.signals, s.aspect = Aspect.clear := by
  obtain rfl | ⟨occId, rfl, hmem⟩ := h
  · exact clearSignals_signals net
  · have hn : jsIndexOf occId routeEdgeIds = none :=
      (jsIndexOf_eq_none_iff occId routeEdgeIds).mpr hmem
    show ∀ e ∈ (match jsIndexOf occId routeEdgeIds with
        | none => clearSignals net
        | some occupiedIndex =>
          let afterStop :=
            setSignalsOnEdge (clearSignals net) occId dir Aspect.stop
          if 0 < occupiedIndex then
            setSignalsOnEdge afterStop (routeEdgeIds.getD (occupiedIndex - 1) "")
              dir Aspect.caution
          else afterStop).edges,
      ∀ s ∈ e.signals, s.aspect = Aspect.clear
    rw [hn]
    exact clearSignals_signals net

theorem updateSignalAspects_absent_all_clear_witness :
    (some "E9" = Option.none ∨
      ∃ occId, some "E9" = some occId ∧ occId ∉ ["E1", "E2"]) ∧
    ∀ e ∈ (updateSignalAspects signalProbeNet (some "E9") ["E1", "E2"]
        Dir.forward).edges,
      ∀ s ∈ e.signals, s.aspect = Aspect.clear :=
  ⟨Or.inr ⟨"E9", rfl, by decide⟩,
    updateSignalAspects_absent_all_clear signalProbeNet (some "E9") ["E1", "E2"]
      Dir.forward (Or.inr ⟨"E9", rfl, by decide⟩)⟩

end RailSim

/- ## Route finding (src/src/main.ts: findPath, generateDefaultRoute,
   buildSequentialRoute) -/

namespace RailSim

structure QueueEntry where
  nodeId : String
  path : List RouteSegment

/-- The node reached and the RouteSegment built when `edge` is traversed
from `fromNodeId` (the loop body of findPath's adjacency scan). -/
def pathStep (edge : TopoEdge) (fromNodeId : String) : String × RouteSegment :=
  if edge.startNodeId = fromNodeId then
    (edge.endNodeId, ⟨edge.id, Dir.forward, 0, edge.length⟩)
  else
    (edge.startNodeId, ⟨edge.id, Dir.reverse, edge.length, 0⟩)

/-- The queue entries findPath pushes when it expands `current` (visited
already holds current.nodeId). -/
def findPathSuccs (net : TrackNetwork) (current : QueueEntry)
    (visited : List String) : List QueueEntry :=
  (getAdjacentEdges net current.nodeId).filterMap (fun edge =>
    if (pathStep edge current.nodeId).1 ∈ visited then none
    else some ⟨(pathStep edge current.nodeId).1,
      current.path ++ [(pathStep edge current.nodeId).2]⟩)

def findPathLoop (net : TrackNetwork) (endNodeId : String) :
    ℕ → List QueueEntry → List String → List RouteSegment
  | 0, _, _ => []
  | _ + 1, [], _ => []
  | fuel + 1, current :: queue, visited =>
    if current.nodeId = endNodeId ∧ current.path ≠ [] then current.path
    else if current.nodeId ∈ visited then findPathLoop net endNodeId fuel queue visited
    else findPathLoop net endNodeId fuel
      (queue ++ findPathSuccs net current (current.nodeId :: visited))
      (current.nodeId :: visited)

/-- Enough fuel for findPath's while loop: one iteration per dequeue, and
at most one initial entry plus one push per connected-edge slot of each
node (a node is expanded at most once). -/
def findPathFuel (net : TrackNetwork) : ℕ :=
  1 + net.nodes.length + (net.nodes.map (fun n => n.connectedEdges.length)).sum

def findPath (net : TrackNetwork) (startNodeId endNodeId : String) :
    List RouteSegment :=
  findPathLoop net endNodeId (findPathFuel net) [⟨startNodeId, []⟩] []

def buildSequentialLoop (net : TrackNetwork) :
    ℕ → List TopoEdge → List String → List RouteSegment
  | 0, _, _ => []
  | _ + 1, [], _ => []
  | fuel + 1, edge :: stack, visited =>
    if edge.id ∈ visited then buildSequentialLoop net fuel stack visited
    else
      ⟨edge.id, Dir.forward, 0, edge.length⟩ ::
        buildSequentialLoop net fuel
          (((getAdjacentEdges net edge.endNodeId).filter
              (fun nxt => nxt.id ∉ edge.id :: visited)).reverse ++ stack)
          (edge.id :: visited)

def seqFuel (net : TrackNetwork) : ℕ :=
  1 + net.edges.length +
    (net.edges.map (fun e => (getAdjacentEdges net e.endNodeId).length)).sum

def buildSequentialRoute (net : TrackNetwork) : List RouteSegment :=
  match net.edges with
  | [] => []
  | e :: _ => buildSequentialLoop net (seqFuel net) [e] []

def dummyNode : TopoNode := ⟨"", ⟨0, 0⟩, NodeType.endpoint, []⟩

def bufferNodes (net : TrackNetwork) : List TopoNode :=
  net.nodes.filter (fun n => n.type = NodeType.buffer)

def generateDefaultRoute (net : TrackNetwork) : List RouteSegment :=
  match net.edges with
  | [] => []
  | _ :: _ =>
    if 2 ≤ (bufferNodes net).length then
      match findPath net ((bufferNodes net).getD 0 dummyNode).id
          (((bufferNodes net).getLast?).getD dummyNode).id with
      | [] => buildSequentialRoute net
      | s :: rest => s :: rest
    else buildSequentialRoute net

end RailSim

namespace RailSim

/-- Reachability between edges along buildSequentialRoute's successor
relation: the successors of an edge are the edges adjacent to its end
node. -/
inductive EdgeReach (net : TrackNetwork) (e0 : TopoEdge) : TopoEdge → Prop
  | refl : EdgeReach net e0 e0
  | step {e e' : TopoEdge} : EdgeReach net e0 e →
      e' ∈ getAdjacentEdges net e.endNodeId → EdgeReach net e0 e'

theorem getEdge_mem (net : TrackNetwork) (id : String) (e : TopoEdge)
    (h : getEdge net id = some e) : e ∈ net.edges :=
  List.mem_of_find?_eq_some h

theorem getAdjacentEdges_subset (net : TrackNetwork) (nodeId : String) :
    ∀ e ∈ getAdjacentEdges net nodeId, e ∈ net.edges := by
  intro e he
  unfold getAdjacentEdges at he
  cases h : getNode net nodeId with
  | none => rw [h] at he; cases he
  | some node =>
    rw [h] at he
    simp only [List.mem_filterMap] at he
    obtain ⟨id, -, hid⟩ := he
    exact getEdge_mem net id e hid

theorem EdgeReach.mem_of_mem (net : TrackNetwork) {e0 e : TopoEdge}
    (h : EdgeReach net e0 e) (h0 : e0 ∈ net.edges) : e ∈ net.edges := by
  induction h with
  | refl => exact h0
  | step _ hsucc _ => exact getAdjacentEdges_subset net _ _ hsucc

theorem sum_map_filter_imp (f : TopoEdge → ℕ) (p q : TopoEdge → Bool)
    (himp : ∀ e, p e = true → q e = true) :
    ∀ l : List TopoEdge, ((l.filter p).map f).sum ≤ ((l.filter q).map f).sum := by
  intro l
  induction l with
  | nil => simp
  | cons x xs ih =>
    by_cases hx : p x = true
    · rw [List.filter_cons, if_pos hx, List.filter_cons, if_pos (himp x hx)]
      simp only [List.map_cons, List.sum_cons]
      omega
    · rw [List.filter_cons, if_neg hx]
      by_cases hq : q x = true
      · rw [List.filter_cons, if_pos hq]
        simp only [List.map_cons, List.sum_cons]
        omega
      · rw [List.filter_cons, if_neg hq]
        exact ih

/-- The potential of the sequential DFS: one unit plus one per successor
slot for every edge not yet visited, summed over `l`. -/
def seqPotentialL (net : TrackNetwork) (l : List TopoEdge)
    (visited : List String) : ℕ :=
  ((l.filter (fun e => e.id ∉ visited)).map
    (fun e => 1 + (getAdjacentEdges net e.endNodeId).length)).sum

def seqPotential (net : TrackNetwork) (visited : List String) : ℕ :=
  seqPotentialL net net.edges visited

theorem seqPotentialL_mono (net : TrackNetwork) (l : List TopoEdge)
    (visited visited' : List String) (hsub : visited ⊆ visited') :
    seqPotentialL net l visited' ≤ seqPotentialL net l visited := by
  unfold seqPotentialL
  refine sum_map_filter_imp _ _ _ (fun e he => ?_) l
  simp only [decide_eq_true_eq] at he ⊢
  exact fun hc => he (hsub hc)

theorem seqPotentialL_visit (net : TrackNetwork) (l : List TopoEdge)
    (visited : List String) (edge : TopoEdge) (hnv : edge.id ∉ visited) :
    ∀ _ : edge ∈ l,
      seqPotentialL net l (edge.id :: visited) + 1 +
        (getAdjacentEdges net edge.endNodeId).length ≤ seqPotentialL net l visited := by
  induction l with
  | nil => intro h; cases h
  | cons x xs ih =>
    intro hmem
    rcases List.mem_cons.mp hmem with rfl | hxs
    · unfold seqPotentialL
      rw [List.filter_cons, if_neg (by simp), List.filter_cons, if_pos (by simpa)]
      simp only [List.map_cons, List.sum_cons]
      have := seqPotentialL_mono net xs visited (edge.id :: visited)
        (List.subset_cons_self edge.id visited)
      unfold seqPotentialL at this
      omega
    · by_cases hx : x.id ∈ edge.id :: visited
      · by_cases hxold : x.id ∈ visited
        · have h1 : ¬(decide (x.id ∉ edge.id :: visited) = true) := by
            simp only [decide_eq_true_eq]
            exact not_not_intro (List.mem_cons_of_mem _ hxold)
          have h2 : ¬(decide (x.id ∉ visited) = true) := by
            simp only [decide_eq_true_eq]
            exact not_not_intro hxold
          unfold seqPotentialL
          rw [List.filter_cons, if_neg h1, List.filter_cons, if_neg h2]
          exact ih hxs
        · have h1 : ¬(decide (x.id ∉ edge.id :: visited) = true) := by
            simp only [decide_eq_true_eq]
            exact not_not_intro hx
          have h2 : decide (x.id ∉ visited) = true := by
            simp only [decide_eq_true_eq]
            exact hxold
          unfold seqPotentialL
          rw [List.filter_cons, if_neg h1, List.filter_cons, if_pos h2]
          simp only [List.map_cons, List.sum_cons]
          have := ih hxs
          unfold seqPotentialL at this
          omega
      · have hxold : x.id ∉ visited := fun hc => hx (List.mem_cons_of_mem _ hc)
        have h1 : decide (x.id ∉ edge.id :: visited) = true := by
          simp only [decide_eq_true_eq]
          exact hx
        have h2 : decide (x.id ∉ visited) = true := by
          simp only [decide_eq_true_eq]
          exact hxold
        unfold seqPotentialL
        rw [List.filter_cons, if_pos h1, List.filter_cons, if_pos h2]
        simp only [List.map_cons, List.sum_cons]
        have := ih hxs
        unfold seqPotentialL at this
        omega

end RailSim

namespace RailSim

theorem seqLoop_sound (net : TrackNetwork) (e0 : TopoEdge) :
    ∀ fuel (stack : List TopoEdge) (visited : List String),
      (∀ e ∈ stack, e ∈ net.edges ∧ EdgeReach net e0 e) →
      ∀ seg ∈ buildSequentialLoop net fuel stack visited,
        ∃ e ∈ net.edges, EdgeReach net e0 e ∧
          seg = ⟨e.id, Dir.forward, 0, e.length⟩ := by
  intro fuel
  induction fuel with
  | zero =>
    intro stack visited _ seg hseg
    cases hseg
  | succ fuel ih =>
    intro stack visited hstack seg hseg
    match stack with
    | [] => cases hseg
    | edge :: rest =>
      rw [buildSequentialLoop] at hseg
      by_cases hv : edge.id ∈ visited
      · rw [if_pos hv] at hseg
        exact ih rest visited (fun e he => hstack e (List.mem_cons_of_mem _ he)) seg hseg
      · rw [if_neg hv] at hseg
        rcases List.mem_cons.mp hseg with rfl | hrec
        · obtain ⟨hmem, hr⟩ := hstack edge (List.mem_cons_self _ _)
          exact ⟨edge, hmem, hr, rfl⟩
        · refine ih _ _ ?_ seg hrec
          intro e he
          rcases List.mem_append.mp he with hpush | hrest
          · have hadj : e ∈ getAdjacentEdges net edge.endNodeId :=
              List.mem_of_mem_filter (List.mem_reverse.mp hpush)
            obtain ⟨-, hr⟩ := hstack edge (List.mem_cons_self _ _)
            exact ⟨getAdjacentEdges_subset net _ _ hadj, EdgeReach.step hr hadj⟩
          · exact hstack e (List.mem_cons_of_mem _ hrest)

theorem seqLoop_not_visited (net : TrackNetwork) :
    ∀ fuel (stack : List TopoEdge) (visited : List String),
      ∀ x ∈ (buildSequentialLoop net fuel stack visited).map (fun s => s.edgeId),
        x ∉ visited := by
  intro fuel
  induction fuel with
  | zero =>
    intro stack visited x hx
    cases hx
  | succ fuel ih =>
    intro stack visited x hx
    match stack with
    | [] => cases hx
    | edge :: rest =>
      rw [buildSequentialLoop] at hx
      by_cases hv : edge.id ∈ visited
      · rw [if_pos hv] at hx
        exact ih rest visited x hx
      · rw [if_neg hv] at hx
        simp only [List.map_cons, List.mem_cons] at hx
        rcases hx with rfl | hrec
        · exact hv
        · have := ih _ _ x hrec
          exact fun hc => this (List.mem_cons_of_mem _ hc)

theorem seqLoop_nodup (net : TrackNetwork) :
    ∀ fuel (stack : List TopoEdge) (visited : List String),
      ((buildSequentialLoop net fuel stack visited).map (fun s => s.edgeId)).Nodup := by
  intro fuel
  induction fuel with
  | zero =>
    intro stack visited
    cases stack <;> simp [buildSequentialLoop]
  | succ fuel ih =>
    intro stack visited
    match stack with
    | [] => simp [buildSequentialLoop]
    | edge :: rest =>
      rw [buildSequentialLoop]
      by_cases hv : edge.id ∈ visited
      · rw [if_pos hv]
        exact ih rest visited
      · rw [if_neg hv]
        simp only [List.map_cons, List.nodup_cons]
        refine ⟨?_, ih _ _⟩
        intro hc
        exact seqLoop_not_visited net fuel _ _ edge.id hc (List.mem_cons_self _ _)

/-- The sequential DFS invariant: every successor of a visited edge is
itself visited or still on the stack. -/
def SeqInv (net : TrackNetwork) (stack : List TopoEdge)
    (visited : List String) : Prop :=
  ∀ e ∈ net.edges, e.id ∈ visited →
    ∀ e' ∈ getAdjacentEdges net e.endNodeId, e'.id ∈ visited ∨ e' ∈ stack

theorem seq_path_escape (net : TrackNetwork) (stack : List TopoEdge)
    (visited : List String) (hinv : SeqInv net stack visited) :
    ∀ {e e' : TopoEdge}, EdgeReach net e e' → e ∈ net.edges →
      (e.id ∈ visited ∨ e ∈ stack) → e'.id ∉ visited →
      ∃ eh ∈ stack, eh.id ∉ visited ∧ EdgeReach net eh e' := by
  intro e e' hr
  induction hr with
  | refl =>
    intro hmem hchoice hnv
    rcases hchoice with h | h
    · exact absurd h hnv
    · exact ⟨e, h, hnv, EdgeReach.refl⟩
  | step hrm hsucc ih =>
    rename_i m e'
    intro hmem hchoice hnv
    by_cases hm : m.id ∈ visited
    · have hm_mem : m ∈ net.edges := hrm.mem_of_mem net hmem
      rcases hinv m hm_mem hm e' hsucc with h | h
      · exact absurd h hnv
      · exact ⟨e', h, hnv, EdgeReach.refl⟩
    · obtain ⟨eh, heh, hehnv, hreh⟩ := ih hmem hchoice hm
      exact ⟨eh, heh, hehnv, EdgeReach.step hreh hsucc⟩

end RailSim

namespace RailSim

theorem seqLoop_complete (net : TrackNetwork)
    (hnd : (net.edges.map (fun e => e.id)).Nodup) :
    ∀ fuel (stack : List TopoEdge) (visited : List String),
      stack.length + seqPotential net visited ≤ fuel →
      (∀ e ∈ stack, e ∈ net.edges) →
      SeqInv net stack visited →
      ∀ e' ∈ net.edges, e'.id ∉ visited →
        (∃ e ∈ stack, EdgeReach net e e') →
        e'.id ∈ (buildSequentialLoop net fuel stack visited).map (fun s => s.edgeId) := by
  intro fuel
  induction fuel with
  | zero =>
    intro stack visited hm _ _ e' _ _ hex
    obtain ⟨e, he, -⟩ := hex
    have : 1 ≤ stack.length := List.length_pos.mpr (List.ne_nil_of_mem he)
    omega
  | succ fuel ih =>
    intro stack visited hm hsub hinv e' he' hnv hex
    match stack with
    | [] =>
      obtain ⟨e, he, -⟩ := hex
      cases he
    | edge :: rest =>
      rw [buildSequentialLoop]
      by_cases hv : edge.id ∈ visited
      · rw [if_pos hv]
        obtain ⟨e, he, hr⟩ := hex
        obtain ⟨eh, heh, hehnv, hrh⟩ :=
          seq_path_escape net (edge :: rest) visited hinv hr (hsub e he) (Or.inr he) hnv
        have hehrest : eh ∈ rest := by
          rcases List.mem_cons.mp heh with rfl | h
          · exact absurd hv hehnv
          · exact h
        have hinv' : SeqInv net rest visited := by
          intro a ha hav a' ha'
          rcases hinv a ha hav a' ha' with h | h
          · exact Or.inl h
          · rcases List.mem_cons.mp h with rfl | hh
            · exact Or.inl hv
            · exact Or.inr hh
        refine ih rest visited ?_ (fun e he => hsub e (List.mem_cons_of_mem _ he))
          hinv' e' he' hnv ⟨eh, hehrest, hrh⟩
        simp only [List.length_cons] at hm
        omega
      · rw [if_neg hv]
        rw [List.map_cons, List.mem_cons]
        by_cases heq : e'.id = edge.id
        · exact Or.inl heq
        · have hedgemem : edge ∈ net.edges := hsub edge (List.mem_cons_self _ _)
          have hm' : (((getAdjacentEdges net edge.endNodeId).filter
                (fun nxt => nxt.id ∉ edge.id :: visited)).reverse ++ rest).length +
              seqPotential net (edge.id :: visited) ≤ fuel := by
            have hpot := seqPotentialL_visit net net.edges visited edge hv hedgemem
            have hlen : (((getAdjacentEdges net edge.endNodeId).filter
                (fun nxt => nxt.id ∉ edge.id :: visited)).reverse).length ≤
                (getAdjacentEdges net edge.endNodeId).length := by
              rw [List.length_reverse]
              exact List.length_filter_le _ _
            simp only [List.length_append, List.length_cons] at hm ⊢
            unfold seqPotential at hm ⊢
            omega
          have hsub' : ∀ e ∈ ((getAdjacentEdges net edge.endNodeId).filter
                (fun nxt => nxt.id ∉ edge.id :: visited)).reverse ++ rest,
              e ∈ net.edges := by
            intro e he
            rcases List.mem_append.mp he with h | h
            · exact getAdjacentEdges_subset net _ _
                (List.mem_of_mem_filter (List.mem_reverse.mp h))
            · exact hsub e (List.mem_cons_of_mem _ h)
          have hinv' : SeqInv net
              (((getAdjacentEdges net edge.endNodeId).filter
                (fun nxt => nxt.id ∉ edge.id :: visited)).reverse ++ rest)
              (edge.id :: visited) := by
            intro a ha hav a' ha'
            rcases List.mem_cons.mp hav with haeq | hav'
            · have haedge : a = edge :=
                List.inj_on_of_nodup_map hnd ha hedgemem haeq
              subst haedge
              by_cases h' : a'.id ∈ a.id :: visited
              · exact Or.inl h'
              · refine Or.inr (List.mem_append.mpr (Or.inl ?_))
                rw [List.mem_reverse]
                exact List.mem_filter.mpr ⟨ha', by simpa using h'⟩
            · rcases hinv a ha hav' a' ha' with h | h
              · exact Or.inl (List.mem_cons_of_mem _ h)
              · rcases List.mem_cons.mp h with rfl | hh
                · exact Or.inl (List.mem_cons_self _ _)
                · exact Or.inr (List.mem_append.mpr (Or.inr hh))
          have hnv' : e'.id ∉ edge.id :: visited :=
            fun hc => (List.mem_cons.mp hc).elim heq hnv
          have hex' : ∃ e ∈ ((getAdjacentEdges net edge.endNodeId).filter
                (fun nxt => nxt.id ∉ edge.id :: visited)).reverse ++ rest,
              EdgeReach net e e' := by
            obtain ⟨e, he, hr⟩ := hex
            have hchoice : e.id ∈ edge.id :: visited ∨
                e ∈ ((getAdjacentEdges net edge.endNodeId).filter
                  (fun nxt => nxt.id ∉ edge.id :: visited)).reverse ++ rest := by
              rcases List.mem_cons.mp he with rfl | h
              · exact Or.inl (List.mem_cons_self _ _)
              · exact Or.inr (List.mem_append.mpr (Or.inr h))
            obtain ⟨eh, heh, -, hrh⟩ :=
              seq_path_escape net _ (edge.id :: visited) hinv' hr (hsub e he) hchoice hnv'
            exact ⟨eh, heh, hrh⟩
          exact Or.inr (ih _ _ hm' hsub' hinv' e' he' hnv' hex')

end RailSim

namespace RailSim

theorem sum_map_one_add (f : TopoEdge → ℕ) :
    ∀ l : List TopoEdge, (l.map (fun e => 1 + f e)).sum = l.length + (l.map f).sum := by
  intro l
  induction l with
  | nil => simp
  | cons x xs ih =>
    simp only [List.map_cons, List.sum_cons, List.length_cons, ih]
    omega

theorem seqPotential_nil (net : TrackNetwork) :
    seqPotential net [] = net.edges.length +
      (net.edges.map (fun e => (getAdjacentEdges net e.endNodeId).length)).sum := by
  unfold seqPotential seqPotentialL
  have hf : net.edges.filter (fun e => e.id ∉ ([] : List String)) = net.edges := by
    refine List.filter_eq_self.mpr ?_
    intro a _
    simp
  rw [hf, sum_map_one_add]

theorem generateDefaultRoute_no_buffers (net : TrackNetwork) (e0 : TopoEdge)
    (erest : List TopoEdge) (hedges : net.edges = e0 :: erest)
    (hb : (bufferNodes net).length < 2) :
    generateDefaultRoute net = buildSequentialRoute net := by
  unfold generateDefaultRoute
  rw [hedges]
  exact if_neg (by omega)

theorem buildSequentialRoute_eq (net : TrackNetwork) (e0 : TopoEdge)
    (erest : List TopoEdge) (hedges : net.edges = e0 :: erest) :
    buildSequentialRoute net = buildSequentialLoop net (seqFuel net) [e0] [] := by
  unfold buildSequentialRoute
  rw [hedges]

/-- C8 amended: with fewer than two buffer nodes, generateDefaultRoute is
the sequential traversal, which lists each edge id at most once, contains
only forward segments of edges reachable from the first edge through the
end-node successor relation (EdgeReach), and contains the id of every such
reachable edge; an edge adjacent to the start edge only through its start
node is not covered.  With at least two buffer nodes the result is
findPath between the first and last buffer node when that path is
nonempty, and the sequential traversal otherwise. -/
theorem generateDefaultRoute_spec (net : TrackNetwork) (e0 : TopoEdge)
    (erest : List TopoEdge) (hedges : net.edges = e0 :: erest)
    (hnd : (net.edges.map (fun e => e.id)).Nodup) :
    ((bufferNodes net).length < 2 →
      generateDefaultRoute net = buildSequentialRoute net ∧
      ((buildSequentialRoute net).map (fun s => s.edgeId)).Nodup ∧
      (∀ seg ∈ buildSequentialRoute net, ∃ e ∈ net.edges,
        EdgeReach net e0 e ∧ seg = ⟨e.id, Dir.forward, 0, e.length⟩) ∧
      (∀ e ∈ net.edges, EdgeReach net e0 e →
        e.id ∈ (buildSequentialRoute net).map (fun s => s.edgeId))) ∧
    (2 ≤ (bufferNodes net).length →
      (findPath net ((bufferNodes net).getD 0 dummyNode).id
          (((bufferNodes net).getLast?).getD dummyNode).id = [] →
            generateDefaultRoute net = buildSequentialRoute net) ∧
      (∀ s ss, findPath net ((bufferNodes net).getD 0 dummyNode).id
          (((bufferNodes net).getLast?).getD dummyNode).id = s :: ss →
            generateDefaultRoute net = s :: ss)) := by
  have hroute := buildSequentialRoute_eq net e0 erest hedges
  constructor
  · intro hb
    refine ⟨generateDefaultRoute_no_buffers net e0 erest hedges hb, ?_, ?_, ?_⟩
    · rw [hroute]
      exact seqLoop_nodup net _ _ _
    · rw [hroute]
      refine seqLoop_sound net e0 (seqFuel net) [e0] [] ?_
      intro e he
      rw [List.mem_singleton] at he
      subst he
      exact ⟨by rw [hedges]; exact List.mem_cons_self _ _, EdgeReach.refl⟩
    · intro e he hr
      rw [hroute]
      refine seqLoop_complete net hnd (seqFuel net) [e0] [] ?_ ?_ ?_ e he
        (List.not_mem_nil e.id) ⟨e0, List.mem_singleton_self e0, hr⟩
      · have h := seqPotential_nil net
        unfold seqFuel
        simp only [List.length_singleton]
        omega
      · intro x hx
        rw [List.mem_singleton] at hx
        subst hx
        rw [hedges]
        exact List.mem_cons_self _ _
      · intro a _ hav
        cases hav
  · intro hb2
    constructor
    · intro hp
      unfold generateDefaultRoute
      rw [hedges]
      show (if 2 ≤ (bufferNodes net).length then
          match findPath net ((bufferNodes net).getD 0 dummyNode).id
              (((bufferNodes net).getLast?).getD dummyNode).id with
          | [] => buildSequentialRoute net
          | s :: srest => s :: srest
        else buildSequentialRoute net) = buildSequentialRoute net
      rw [if_pos hb2, hp]
    · intro s ss hp
      unfold generateDefaultRoute
      rw [hedges]
      show (if 2 ≤ (bufferNodes net).length then
          match findPath net ((bufferNodes net).getD 0 dummyNode).id
              (((bufferNodes net).getLast?).getD dummyNode).id with
          | [] => buildSequentialRoute net
          | s :: srest => s :: srest
        else buildSequentialRoute net) = s :: ss
      rw [if_pos hb2, hp]

end RailSim

namespace RailSim

def c8EdgeA : TopoEdge :=
  ⟨"A", "N1", "N2", 100, [⟨0, 0⟩, ⟨100, 0⟩], [⟨0, 0⟩], [], []⟩

def c8EdgeB : TopoEdge :=
  ⟨"B", "N3", "N1", 50, [⟨-50, 0⟩, ⟨0, 0⟩], [⟨0, 0⟩], [], []⟩

/-- A network with no buffer nodes whose second edge B ends at the start
node of the first edge A: B is adjacent to A through N1, yet the
sequential traversal never reaches it. -/
def c8Net : TrackNetwork where
  nodes := [⟨"N1", ⟨0, 0⟩, NodeType.endpoint, ["A", "B"]⟩,
    ⟨"N2", ⟨100, 0⟩, NodeType.endpoint, ["A"]⟩,
    ⟨"N3", ⟨-50, 0⟩, NodeType.endpoint, ["B"]⟩]
  edges := [c8EdgeA, c8EdgeB]
  stations := []

theorem generateDefaultRoute_misses_adjacent_edge :
    (bufferNodes c8Net).length < 2 ∧
    c8Net.edges.map (fun e => e.id) = ["A", "B"] ∧
    (getAdjacentEdges c8Net "N1").map (fun e => e.id) = ["A", "B"] ∧
    c8EdgeA.startNodeId = "N1" ∧ c8EdgeB.endNodeId = "N1" ∧
    (generateDefaultRoute c8Net).map (fun s => s.edgeId) = ["A"] := by
  decide

theorem generateDefaultRoute_spec_witness :
    ((bufferNodes c8Net).length < 2 →
      generateDefaultRoute c8Net = buildSequentialRoute c8Net ∧
      ((buildSequentialRoute c8Net).map (fun s => s.edgeId)).Nodup ∧
      (∀ seg ∈ buildSequentialRoute c8Net, ∃ e ∈ c8Net.edges,
        EdgeReach c8Net c8EdgeA e ∧ seg = ⟨e.id, Dir.forward, 0, e.length⟩) ∧
      (∀ e ∈ c8Net.edges, EdgeReach c8Net c8EdgeA e →
        e.id ∈ (buildSequentialRoute c8Net).map (fun s => s.edgeId))) ∧
    (2 ≤ (bufferNodes c8Net).length →
      (findPath c8Net ((bufferNodes c8Net).getD 0 dummyNode).id
          (((bufferNodes c8Net).getLast?).getD dummyNode).id = [] →
            generateDefaultRoute c8Net = buildSequentialRoute c8Net) ∧
      (∀ s ss, findPath c8Net ((bufferNodes c8Net).getD 0 dummyNode).id
          (((bufferNodes c8Net).getLast?).getD dummyNode).id = s :: ss →
            generateDefaultRoute c8Net = s :: ss)) :=
  generateDefaultRoute_spec c8Net c8EdgeA [c8EdgeB] rfl (by decide)

end RailSim

namespace RailSim

/-- Path semantics matching the queue entries of findPath: a path is built
by repeatedly traversing an adjacent edge from the current node, appending
the RouteSegment that pathStep produces. -/
inductive NodePath (net : TrackNetwork) (start : String) :
    String → List RouteSegment → Prop
  | nil : NodePath net start start []
  | snoc {v : String} {p : List RouteSegment} (edge : TopoEdge)
      (hp : NodePath net start v p) (he : edge ∈ getAdjacentEdges net v) :
      NodePath net start (pathStep edge v).1 (p ++ [(pathStep edge v).2])

theorem NodePath.segs (net : TrackNetwork) (start : String) :
    ∀ {w : String} {p : List RouteSegment}, NodePath net start w p →
      ∀ seg ∈ p, ∃ edge ∈ net.edges,
        seg = ⟨edge.id, Dir.forward, 0, edge.length⟩ ∨
        seg = ⟨edge.id, Dir.reverse, edge.length, 0⟩ := by
  intro w p hp
  induction hp with
  | nil =>
    intro seg hseg
    cases hseg
  | snoc edge hp' he ih =>
    rename_i v p'
    intro seg hseg
    rcases List.mem_append.mp hseg with h | h
    · exact ih seg h
    · rw [List.mem_singleton] at h
      subst h
      refine ⟨edge, getAdjacentEdges_subset net v edge he, ?_⟩
      unfold pathStep
      by_cases hf : edge.startNodeId = v
      · rw [if_pos hf]
        exact Or.inl rfl
      · rw [if_neg hf]
        exact Or.inr rfl

def potentialL {α : Type} (key : α → String) (wt : α → ℕ)
    (l : List α) (visited : List String) : ℕ :=
  ((l.filter (fun a => key a ∉ visited)).map (fun a => 1 + wt a)).sum

theorem sum_map_filter_imp2 {α : Type} (f : α → ℕ) (p q : α → Bool)
    (himp : ∀ e, p e = true → q e = true) :
    ∀ l : List α, ((l.filter p).map f).sum ≤ ((l.filter q).map f).sum := by
  intro l
  induction l with
  | nil => simp
  | cons x xs ih =>
    by_cases hx : p x = true
    · rw [List.filter_cons, if_pos hx, List.filter_cons, if_pos (himp x hx)]
      simp only [List.map_cons, List.sum_cons]
      omega
    · rw [List.filter_cons, if_neg hx]
      by_cases hq : q x = true
      · rw [List.filter_cons, if_pos hq]
        simp only [List.map_cons, List.sum_cons]
        omega
      · rw [List.filter_cons, if_neg hq]
        exact ih

theorem potentialL_mono {α : Type} (key : α → String) (wt : α → ℕ)
    (l : List α) (visited visited' : List String) (hsub : visited ⊆ visited') :
    potentialL key wt l visited' ≤ potentialL key wt l visited := by
  unfold potentialL
  refine sum_map_filter_imp2 _ _ _ (fun e he => ?_) l
  simp only [decide_eq_true_eq] at he ⊢
  exact fun hc => he (hsub hc)

theorem potentialL_visit {α : Type} (key : α → String) (wt : α → ℕ)
    (visited : List String) (a : α) (hnv : key a ∉ visited) :
    ∀ (l : List α), a ∈ l →
      potentialL key wt l (key a :: visited) + 1 + wt a ≤ potentialL key wt l visited := by
  intro l
  induction l with
  | nil => intro h; cases h
  | cons x xs ih =>
    intro hmem
    rcases List.mem_cons.mp hmem with rfl | hxs
    · unfold potentialL
      rw [List.filter_cons, if_neg (by simp), List.filter_cons, if_pos (by simpa)]
      simp only [List.map_cons, List.sum_cons]
      have := potentialL_mono key wt xs visited (key a :: visited)
        (List.subset_cons_self (key a) visited)
      unfold potentialL at this
      omega
    · by_cases hxold : key x ∈ visited
      · have h1 : ¬(decide (key x ∉ key a :: visited) = true) := by
          simp only [decide_eq_true_eq]
          exact not_not_intro (List.mem_cons_of_mem _ hxold)
        have h2 : ¬(decide (key x ∉ visited) = true) := by
          simp only [decide_eq_true_eq]
          exact not_not_intro hxold
        unfold potentialL
        rw [List.filter_cons, if_neg h1, List.filter_cons, if_neg h2]
        exact ih hxs
      · by_cases hx : key x ∈ key a :: visited
        · have h1 : ¬(decide (key x ∉ key a :: visited) = true) := by
            simp only [decide_eq_true_eq]
            exact not_not_intro hx
          have h2 : decide (key x ∉ visited) = true := by
            simp only [decide_eq_true_eq]
            exact hxold
          unfold potentialL
          rw [List.filter_cons, if_neg h1, List.filter_cons, if_pos h2]
          simp only [List.map_cons, List.sum_cons]
          have := ih hxs
          unfold potentialL at this
          omega
        · have h1 : decide (key x ∉ key a :: visited) = true := by
            simp only [decide_eq_true_eq]
            exact hx
          have h2 : decide (key x ∉ visited) = true := by
            simp only [decide_eq_true_eq]
            exact hxold
          unfold potentialL
          rw [List.filter_cons, if_pos h1, List.filter_cons, if_pos h2]
          simp only [List.map_cons, List.sum_cons]
          have := ih hxs
          unfold potentialL at this
          omega

def nodePotential (net : TrackNetwork) (visited : List String) : ℕ :=
  potentialL (fun n : TopoNode => n.id) (fun n => n.connectedEdges.length)
    net.nodes visited

end RailSim

namespace RailSim

theorem mem_findPathSuccs (net : TrackNetwork) (current : QueueEntry)
    (visited : List String) (entry : QueueEntry) :
    entry ∈ findPathSuccs net current visited ↔
    ∃ edge ∈ getAdjacentEdges net current.nodeId,
      (pathStep edge current.nodeId).1 ∉ visited ∧
      entry = ⟨(pathStep edge current.nodeId).1,
        current.path ++ [(pathStep edge current.nodeId).2]⟩ := by
  unfold findPathSuccs
  simp only [List.mem_filterMap]
  constructor
  · rintro ⟨edge, he, hsome⟩
    by_cases h : (pathStep edge current.nodeId).1 ∈ visited
    · rw [if_pos h] at hsome
      cases hsome
    · rw [if_neg h] at hsome
      exact ⟨edge, he, h, (Option.some.inj hsome).symm⟩
  · rintro ⟨edge, he, h, rfl⟩
    exact ⟨edge, he, by rw [if_neg h]⟩

theorem findPathSuccs_length_le (net : TrackNetwork) (current : QueueEntry)
    (visited : List String) :
    (findPathSuccs net current visited).length ≤
      (getAdjacentEdges net current.nodeId).length :=
  List.length_filterMap_le _ _

theorem getNode_mem (net : TrackNetwork) (nodeId : String) (node : TopoNode)
    (h : getNode net nodeId = some node) : node ∈ net.nodes :=
  List.mem_of_find?_eq_some h

theorem getNode_id (net : TrackNetwork) (nodeId : String) (node : TopoNode)
    (h : getNode net nodeId = some node) : node.id = nodeId := by
  have := List.find?_some h
  simpa using this

theorem getAdjacentEdges_none (net : TrackNetwork) (nodeId : String)
    (h : getNode net nodeId = none) : getAdjacentEdges net nodeId = [] := by
  unfold getAdjacentEdges
  rw [h]

theorem getAdjacentEdges_length_le (net : TrackNetwork) (nodeId : String)
    (node : TopoNode) (h : getNode net nodeId = some node) :
    (getAdjacentEdges net nodeId).length ≤ node.connectedEdges.length := by
  unfold getAdjacentEdges
  rw [h]
  exact List.length_filterMap_le _ _

theorem sorted_of_all_eq (c : ℕ) :
    ∀ l : List ℕ, (∀ x ∈ l, x = c) → l.Sorted (· ≤ ·) := by
  intro l
  induction l with
  | nil => intro _; exact List.sorted_nil
  | cons a l ih =>
    intro h
    rw [List.sorted_cons]
    refine ⟨fun b hb => ?_, ih (fun x hx => h x (List.mem_cons_of_mem _ hx))⟩
    rw [h a (List.mem_cons_self _ _), h b (List.mem_cons_of_mem _ hb)]

/-- Every path from the start to a node not yet visited crosses the BFS
frontier: some queue entry is no longer than the path. -/
theorem bfs_cross (net : TrackNetwork) (startId : String)
    (queue : List QueueEntry) (visited : List String) (D : String → ℕ)
    (hV3 : ∀ v ∈ visited, ∀ edge ∈ getAdjacentEdges net v,
      (pathStep edge v).1 ∈ visited ∨
      ∃ entry ∈ queue, entry.nodeId = (pathStep edge v).1 ∧
        entry.path.length ≤ D v + 1)
    (hV13 : ∀ v ∈ visited, ∀ q, NodePath net startId v q → D v ≤ q.length)
    (hV10 : startId ∈ visited ∨
      ∃ entry ∈ queue, entry.nodeId = startId ∧ entry.path = []) :
    ∀ {w : String} {q : List RouteSegment}, NodePath net startId w q →
      w ∉ visited → ∃ entry ∈ queue, entry.path.length ≤ q.length := by
  intro w q hq
  induction hq with
  | nil =>
    intro hw
    rcases hV10 with h | ⟨entry, he, -, hp⟩
    · exact absurd h hw
    · exact ⟨entry, he, by rw [hp]⟩
  | snoc edge hq' hadj ih =>
    rename_i v p
    intro hw
    by_cases hv : v ∈ visited
    · rcases hV3 v hv edge hadj with h | ⟨entry, he, -, hlen⟩
      · exact absurd h hw
      · refine ⟨entry, he, ?_⟩
        have := hV13 v hv p hq'
        simp only [List.length_append, List.length_singleton]
        omega
    · obtain ⟨entry, he, hlen⟩ := ih hv
      refine ⟨entry, he, ?_⟩
      simp only [List.length_append, List.length_singleton]
      omega

end RailSim

namespace RailSim

theorem findPathLoop_spec (net : TrackNetwork) (startId endId : String)
    (hne : startId ≠ endId) :
    ∀ fuel (queue : List QueueEntry) (visited : List String) (D : String → ℕ),
      queue.length + nodePotential net visited ≤ fuel →
      (∀ entry ∈ queue, NodePath net startId entry.nodeId entry.path) →
      List.Sorted (· ≤ ·) (queue.map (fun en => en.path.length)) →
      (∀ a ∈ queue, ∀ b ∈ queue, a.path.length ≤ b.path.length + 1) →
      (∀ v ∈ visited, ∀ edge ∈ getAdjacentEdges net v,
        (pathStep edge v).1 ∈ visited ∨
        ∃ entry ∈ queue, entry.nodeId = (pathStep edge v).1 ∧
          entry.path.length ≤ D v + 1) →
      (∀ v ∈ visited, ∀ q, NodePath net startId v q → D v ≤ q.length) →
      (startId ∈ visited ∨
        ∃ entry ∈ queue, entry.nodeId = startId ∧ entry.path = []) →
      (∀ entry ∈ queue, entry.path = [] → entry.nodeId = startId) →
      endId ∉ visited →
      (findPathLoop net endId fuel queue visited ≠ [] →
        NodePath net startId endId (findPathLoop net endId fuel queue visited) ∧
        ∀ q, NodePath net startId endId q →
          (findPathLoop net endId fuel queue visited).length ≤ q.length) ∧
      (findPathLoop net endId fuel queue visited = [] →
        ∀ q, NodePath net startId endId q → False) := by
  intro fuel
  induction fuel with
  | zero =>
    intro queue visited D hfuel hV1 hV2a hV2b hV3 hV13 hV10 hV8 hV7
    have hq : queue = [] := by
      cases queue with
      | nil => rfl
      | cons a l =>
        simp only [List.length_cons] at hfuel
        omega
    subst hq
    constructor
    · intro hne'
      exact absurd rfl hne'
    · intro _ q hq
      obtain ⟨entry, he, -⟩ := bfs_cross net startId [] visited D hV3 hV13 hV10 hq hV7
      cases he
  | succ fuel ih =>
    intro queue visited D hfuel hV1 hV2a hV2b hV3 hV13 hV10 hV8 hV7
    match queue with
    | [] =>
      constructor
      · intro hne'
        exact absurd rfl hne'
      · intro _ q hq
        obtain ⟨entry, he, -⟩ := bfs_cross net startId [] visited D hV3 hV13 hV10 hq hV7
        cases he
    | current :: rest =>
      have hpair : (∀ b ∈ rest, current.path.length ≤ b.path.length) ∧
          List.Sorted (· ≤ ·) (rest.map (fun en => en.path.length)) := by
        simpa using hV2a
      have hhead : ∀ b ∈ rest, current.path.length ≤ b.path.length := hpair.1
      have hrest_sorted : List.Sorted (· ≤ ·) (rest.map (fun en => en.path.length)) :=
        hpair.2
      rw [findPathLoop]
      by_cases hret : current.nodeId = endId ∧ current.path ≠ []
      · rw [if_pos hret]
        constructor
        · intro _
          constructor
          · have h := hV1 current (List.mem_cons_self _ _)
            rw [hret.1] at h
            exact h
          · intro q hq
            obtain ⟨entry, he, hlen⟩ :=
              bfs_cross net startId (current :: rest) visited D hV3 hV13 hV10 hq hV7
            have hh : current.path.length ≤ entry.path.length := by
              rcases List.mem_cons.mp he with rfl | hr
              · exact le_refl _
              · exact hhead entry hr
            omega
        · intro hemp
          exact absurd hemp hret.2
      · rw [if_neg hret]
        by_cases hvis : current.nodeId ∈ visited
        · rw [if_pos hvis]
          apply ih rest visited D
          · simp only [List.length_cons] at hfuel
            omega
          · exact fun entry he => hV1 entry (List.mem_cons_of_mem _ he)
          · exact hrest_sorted
          · exact fun a ha b hb =>
              hV2b a (List.mem_cons_of_mem _ ha) b (List.mem_cons_of_mem _ hb)
          · intro v hv edge hadj
            rcases hV3 v hv edge hadj with h | ⟨entry, he, heq, hlen⟩
            · exact Or.inl h
            · rcases List.mem_cons.mp he with rfl | hr
              · exact Or.inl (heq ▸ hvis)
              · exact Or.inr ⟨entry, hr, heq, hlen⟩
          · exact hV13
          · rcases hV10 with h | ⟨entry, he, heq, hp⟩
            · exact Or.inl h
            · rcases List.mem_cons.mp he with rfl | hr
              · exact Or.inl (heq ▸ hvis)
              · exact Or.inr ⟨entry, hr, heq, hp⟩
          · exact fun entry he => hV8 entry (List.mem_cons_of_mem _ he)
          · exact hV7
        · rw [if_neg hvis]
          have hV7' : endId ∉ current.nodeId :: visited := by
            intro hc
            rcases List.mem_cons.mp hc with heq | hc'
            · have hpe : current.path = [] := by
                by_contra hne2
                exact hret ⟨heq.symm, hne2⟩
              have hst := hV8 current (List.mem_cons_self _ _) hpe
              exact hne (by rw [← hst, ← heq])
            · exact hV7 hc'
          have hsucc_len : ∀ entry ∈ findPathSuccs net current (current.nodeId :: visited),
              entry.path.length = current.path.length + 1 := by
            intro entry he
            obtain ⟨edge, -, -, rfl⟩ := (mem_findPathSuccs net current _ entry).mp he
            simp [List.length_append]
          have hsucc_node : ∀ entry ∈ findPathSuccs net current (current.nodeId :: visited),
              entry.nodeId ∉ current.nodeId :: visited := by
            intro entry he
            obtain ⟨edge, -, hnv, rfl⟩ := (mem_findPathSuccs net current _ entry).mp he
            exact hnv
          have hsucc_path : ∀ entry ∈ findPathSuccs net current (current.nodeId :: visited),
              NodePath net startId entry.nodeId entry.path := by
            intro entry he
            obtain ⟨edge, hadj, -, rfl⟩ := (mem_findPathSuccs net current _ entry).mp he
            exact NodePath.snoc edge (hV1 current (List.mem_cons_self _ _)) hadj
          apply ih (rest ++ findPathSuccs net current (current.nodeId :: visited))
            (current.nodeId :: visited)
            (fun x => if x = current.nodeId then current.path.length else D x)
          · rw [List.length_append]
            have hsl := findPathSuccs_length_le net current (current.nodeId :: visited)
            simp only [List.length_cons] at hfuel
            cases hnode : getNode net current.nodeId with
            | none =>
              rw [getAdjacentEdges_none net current.nodeId hnode] at hsl
              have hmono : nodePotential net (current.nodeId :: visited) ≤
                  nodePotential net visited :=
                potentialL_mono _ _ net.nodes visited (current.nodeId :: visited)
                  (List.subset_cons_self current.nodeId visited)
              simp only [List.length_nil] at hsl
              omega
            | some node =>
              have hadjle := getAdjacentEdges_length_le net current.nodeId node hnode
              have hid := getNode_id net current.nodeId node hnode
              have hmem := getNode_mem net current.nodeId node hnode
              have hpot := potentialL_visit (fun n : TopoNode => n.id)
                (fun n => n.connectedEdges.length) visited node
                (by simpa [hid] using hvis) net.nodes hmem
              have hpot' : nodePotential net (current.nodeId :: visited) + 1 +
                  node.connectedEdges.length ≤ nodePotential net visited := by
                simpa [nodePotential, potentialL, hid] using hpot
              unfold nodePotential at hpot' hfuel ⊢
              omega
          · intro entry he
            rcases List.mem_append.mp he with h | h
            · exact hV1 entry (List.mem_cons_of_mem _ h)
            · exact hsucc_path entry h
          · rw [List.map_append]
            refine List.pairwise_append.mpr ⟨hrest_sorted, ?_, ?_⟩
            · refine sorted_of_all_eq (current.path.length + 1) _ ?_
              intro x hx
              obtain ⟨entry, he, rfl⟩ := List.mem_map.mp hx
              exact hsucc_len entry he
            · intro a ha b hb
              obtain ⟨ea, hea, rfl⟩ := List.mem_map.mp ha
              obtain ⟨eb, heb, rfl⟩ := List.mem_map.mp hb
              rw [hsucc_len eb heb]
              exact hV2b ea (List.mem_cons_of_mem _ hea) current (List.mem_cons_self _ _)
          · intro a ha b hb
            rcases List.mem_append.mp ha with ha' | ha' <;>
              rcases List.mem_append.mp hb with hb' | hb'
            · exact hV2b a (List.mem_cons_of_mem _ ha') b (List.mem_cons_of_mem _ hb')
            · rw [hsucc_len b hb']
              have := hV2b a (List.mem_cons_of_mem _ ha') current (List.mem_cons_self _ _)
              omega
            · rw [hsucc_len a ha']
              have := hhead b hb'
              omega
            · rw [hsucc_len a ha', hsucc_len b hb']
              omega
          · intro v hv edge hadj
            rcases List.mem_cons.mp hv with rfl | hv'
            · by_cases hu : (pathStep edge current.nodeId).1 ∈ current.nodeId :: visited
              · exact Or.inl hu
              · refine Or.inr ⟨⟨(pathStep edge current.nodeId).1,
                  current.path ++ [(pathStep edge current.nodeId).2]⟩,
                  List.mem_append.mpr (Or.inr ?_), rfl, ?_⟩
                · exact (mem_findPathSuccs net current _ _).mpr ⟨edge, hadj, hu, rfl⟩
                · simp
            · rcases hV3 v hv' edge hadj with h | ⟨entry, he, heq, hlen⟩
              · exact Or.inl (List.mem_cons_of_mem _ h)
              · rcases List.mem_cons.mp he with rfl | hr
                · exact Or.inl (List.mem_cons.mpr (Or.inl heq.symm))
                · refine Or.inr ⟨entry, List.mem_append.mpr (Or.inl hr), heq, ?_⟩
                  have hvne : v ≠ current.nodeId := by
                    intro hc
                    exact hvis (hc ▸ hv')
                  rw [if_neg hvne]
                  exact hlen
          · intro v hv q hq
            rcases List.mem_cons.mp hv with rfl | hv'
            · rw [if_pos rfl]
              obtain ⟨entry, he, hlen⟩ :=
                bfs_cross net startId (current :: rest) visited D hV3 hV13 hV10 hq hvis
              have hh : current.path.length ≤ entry.path.length := by
                rcases List.mem_cons.mp he with rfl | hr
                · exact le_refl _
                · exact hhead entry hr
              omega
            · have hvne : v ≠ current.nodeId := by
                intro hc
                exact hvis (hc ▸ hv')
              rw [if_neg hvne]
              exact hV13 v hv' q hq
          · rcases hV10 with h | ⟨entry, he, heq, hp⟩
            · exact Or.inl (List.mem_cons_of_mem _ h)
            · rcases List.mem_cons.mp he with rfl | hr
              · exact Or.inl (List.mem_cons.mpr (Or.inl heq.symm))
              · exact Or.inr ⟨entry, List.mem_append.mpr (Or.inl hr), heq, hp⟩
          · intro entry he hp
            rcases List.mem_append.mp he with h | h
            · exact hV8 entry (List.mem_cons_of_mem _ h) hp
            · have := hsucc_len entry h
              rw [hp] at this
              simp at this
          · exact hV7'

end RailSim

namespace RailSim

theorem sum_map_one_add2 {α : Type} (f : α → ℕ) :
    ∀ l : List α, (l.map (fun e => 1 + f e)).sum = l.length + (l.map f).sum := by
  intro l
  induction l with
  | nil => simp
  | cons x xs ih =>
    simp only [List.map_cons, List.sum_cons, List.length_cons, ih]
    omega

theorem potentialL_nil {α : Type} (key : α → String) (wt : α → ℕ) (l : List α) :
    potentialL key wt l [] = l.length + (l.map wt).sum := by
  unfold potentialL
  have hf : l.filter (fun a => key a ∉ ([] : List String)) = l :=
    List.filter_eq_self.mpr (fun a _ => by simp)
  rw [hf, sum_map_one_add2]

/-- C6: for distinct start and end nodes, findPath returns a sequence of
RouteSegments forming a path from start to end (in the NodePath sense that
mirrors the queue construction) of minimal length among all such paths,
returns [] exactly when no path exists, and every returned segment is a
forward segment (offsets 0 to length) or a reverse segment (offsets length
to 0) of a network edge. -/
theorem findPath_spec (net : TrackNetwork) (startId endId : String)
    (hne : startId ≠ endId) :
    (findPath net startId endId ≠ [] →
      NodePath net startId endId (findPath net startId endId) ∧
      ∀ q, NodePath net startId endId q →
        (findPath net startId endId).length ≤ q.length) ∧
    (findPath net startId endId = [] →
      ∀ q, NodePath net startId endId q → False) ∧
    (∀ seg ∈ findPath net startId endId, ∃ edge ∈ net.edges,
      seg = ⟨edge.id, Dir.forward, 0, edge.length⟩ ∨
      seg = ⟨edge.id, Dir.reverse, edge.length, 0⟩) := by
  have hmain := findPathLoop_spec net startId endId hne (findPathFuel net)
    [⟨startId, []⟩] [] (fun _ => 0)
    (by
      have h := potentialL_nil (fun n : TopoNode => n.id)
        (fun n => n.connectedEdges.length) net.nodes
      unfold findPathFuel nodePotential
      simp only [List.length_singleton]
      omega)
    (by
      intro entry he
      rw [List.mem_singleton] at he
      subst he
      exact NodePath.nil)
    (by simp)
    (by
      intro a ha b hb
      rw [List.mem_singleton] at ha hb
      subst ha
      subst hb
      simp)
    (by intro v hv; cases hv)
    (by intro v hv; cases hv)
    (Or.inr ⟨⟨startId, []⟩, List.mem_singleton_self _, rfl, rfl⟩)
    (by
      intro entry he _
      rw [List.mem_singleton] at he
      subst he
      rfl)
    (List.not_mem_nil endId)
  have heq : findPath net startId endId =
      findPathLoop net endId (findPathFuel net) [⟨startId, []⟩] [] := rfl
  rw [heq]
  refine ⟨hmain.1, hmain.2, ?_⟩
  intro seg hseg
  by_cases hres : findPathLoop net endId (findPathFuel net) [⟨startId, []⟩] [] = []
  · rw [hres] at hseg
    cases hseg
  · exact NodePath.segs net startId ((hmain.1 hres).1) seg hseg

theorem findPath_spec_witness :
    (findPath signalProbeNet "N1" "N3" ≠ [] →
      NodePath signalProbeNet "N1" "N3" (findPath signalProbeNet "N1" "N3") ∧
      ∀ q, NodePath signalProbeNet "N1" "N3" q →
        (findPath signalProbeNet "N1" "N3").length ≤ q.length) ∧
    (findPath signalProbeNet "N1" "N3" = [] →
      ∀ q, NodePath signalProbeNet "N1" "N3" q → False) ∧
    (∀ seg ∈ findPath signalProbeNet "N1" "N3", ∃ edge ∈ signalProbeNet.edges,
      seg = ⟨edge.id, Dir.forward, 0, edge.length⟩ ∨
      seg = ⟨edge.id, Dir.reverse, edge.length, 0⟩) :=
  findPath_spec signalProbeNet "N1" "N3" (by decide)

end RailSim

/- ## Topology builder: node merge pass
   (src/src/parser/topology-builder.ts mergeColocatedNodes) -/

namespace RailSim

structure BuildState where
  nodes : List TopoNode
  edges : List TopoEdge
  canonical : List (String × String)

/-- Follow the canonical-id chain, as `resolve` does. -/
def resolve (canonical : List (String × String)) : ℕ → String → String
  | 0, id => id
  | fuel + 1, id =>
    match canonical.find? (fun p => p.1 = id) with
    | none => id
    | some p => resolve canonical fuel p.2

def findNode (nodes : List TopoNode) (id : String) : Option TopoNode :=
  nodes.find? (fun n => n.id = id)

def updateNode (nodes : List TopoNode) (id : String) (f : TopoNode → TopoNode) :
    List TopoNode :=
  nodes.map (fun n => if n.id = id then f n else n)

def removeNode (nodes : List TopoNode) (id : String) : List TopoNode :=
  nodes.filter (fun n => ¬ n.id = id)

/-- The connected-edge merge loop: append every id of `l` not already
present. -/
def dedupAppend (acc l : List String) : List String :=
  l.foldl (fun acc2 e => if e ∈ acc2 then acc2 else acc2 ++ [e]) acc

def repointEdge (bId aId : String) (e : TopoEdge) : TopoEdge :=
  { e with
    startNodeId := if e.startNodeId = bId then aId else e.startNodeId,
    endNodeId := if e.endNodeId = bId then aId else e.endNodeId }

/-- Merge node `b` (with id bId) into the node with id aId. -/
def mergeInto (st : BuildState) (aId bId : String) (b : TopoNode) : BuildState where
  nodes := removeNode (updateNode st.nodes aId (fun n =>
    { n with
      connectedEdges := dedupAppend n.connectedEdges b.connectedEdges,
      type := if 2 < (dedupAppend n.connectedEdges b.connectedEdges).length then
        NodeType.switch else n.type })) bId
  edges := st.edges.map (repointEdge bId aId)
  canonical := (bId, aId) :: st.canonical

def innerLoop (aId : String) : List String → BuildState → BuildState
  | [], st => st
  | jId :: rest, st =>
    if resolve st.canonical (st.canonical.length + 1) jId = aId then
      innerLoop aId rest st
    else
      match findNode st.nodes (resolve st.canonical (st.canonical.length + 1) jId) with
      | none => innerLoop aId rest st
      | some b =>
        match findNode st.nodes aId with
        | none => innerLoop aId rest st
        | some a =>
          if dist a.position b.position < 5 then
            innerLoop aId rest
              (mergeInto st aId (resolve st.canonical (st.canonical.length + 1) jId) b)
          else innerLoop aId rest st

def outerLoop : List String → BuildState → BuildState
  | [], st => st
  | iId :: rest, st =>
    match findNode st.nodes (resolve st.canonical (st.canonical.length + 1) iId) with
    | none => outerLoop rest st
    | some _ =>
      outerLoop rest
        (innerLoop (resolve st.canonical (st.canonical.length + 1) iId) rest st)

def mergeColocatedNodes (nodes : List TopoNode) (edges : List TopoEdge) : BuildState :=
  outerLoop (nodes.map (fun n => n.id)) ⟨nodes, edges, []⟩

end RailSim

namespace RailSim

theorem dist_self (v : Vec2) : dist v v = 0 := by
  unfold dist
  have h : (v.x - v.x) * (v.x - v.x) + (v.y - v.y) * (v.y - v.y) = 0 := by ring
  rw [h]
  exact ratSqrt_eq_of_sq le_rfl (by norm_num)

theorem merge_cluster_eval (N1 N2 N3 : TopoNode) (es : List TopoEdge)
    (h12 : N1.id ≠ N2.id) (h13 : N1.id ≠ N3.id) (h23 : N2.id ≠ N3.id)
    (hd12 : dist N1.position N2.position < 5)
    (hd13 : dist N1.position N3.position < 5) :
    (mergeColocatedNodes [N1, N2, N3] es).nodes =
      [⟨N1.id, N1.position,
        (if 2 < (dedupAppend (dedupAppend N1.connectedEdges N2.connectedEdges)
              N3.connectedEdges).length then NodeType.switch
         else if 2 < (dedupAppend N1.connectedEdges N2.connectedEdges).length then
           NodeType.switch else N1.type),
        dedupAppend (dedupAppend N1.connectedEdges N2.connectedEdges)
          N3.connectedEdges⟩] ∧
    (mergeColocatedNodes [N1, N2, N3] es).edges =
      (es.map (repointEdge N2.id N1.id)).map (repointEdge N3.id N1.id) := by
  unfold mergeColocatedNodes
  simp [outerLoop, innerLoop, resolve, findNode, mergeInto, updateNode, removeNode,
    h12, h13, h23, h12.symm, h13.symm, h23.symm, hd12, hd13]

end RailSim

namespace RailSim

theorem mergeColocatedNodes_single (n : TopoNode) (es : List TopoEdge) :
    (mergeColocatedNodes [n] es).nodes = [n] ∧
    (mergeColocatedNodes [n] es).edges = es := by
  unfold mergeColocatedNodes
  simp [outerLoop, innerLoop, resolve, findNode]

/-- C7 amended: for three nodes with distinct ids visited in any order
(the list [N1, N2, N3] stands for an arbitrary visitation order) that are
mutually within the 5 m merge threshold, mergeColocatedNodes leaves
exactly one surviving node — the first-visited one, which keeps its own
id, position and (unless promoted to switch) its own type, and carries
the deduplicated union of the cluster's connected edges — with every edge
repointed to the survivor, and a second pass changes nothing.  The result
is order-independent only up to the identity of the survivor: the
surviving node's position and type come from the first-visited node, so
the structure is not invariant under visitation order. -/
theorem mergeColocatedNodes_cluster (N1 N2 N3 : TopoNode) (es : List TopoEdge)
    (h12 : N1.id ≠ N2.id) (h13 : N1.id ≠ N3.id) (h23 : N2.id ≠ N3.id)
    (hd12 : dist N1.position N2.position < 5)
    (hd13 : dist N1.position N3.position < 5) :
    (mergeColocatedNodes [N1, N2, N3] es).nodes =
      [⟨N1.id, N1.position,
        (if 2 < (dedupAppend (dedupAppend N1.connectedEdges N2.connectedEdges)
              N3.connectedEdges).length then NodeType.switch
         else if 2 < (dedupAppend N1.connectedEdges N2.connectedEdges).length then
           NodeType.switch else N1.type),
        dedupAppend (dedupAppend N1.connectedEdges N2.connectedEdges)
          N3.connectedEdges⟩] ∧
    (mergeColocatedNodes [N1, N2, N3] es).edges =
      (es.map (repointEdge N2.id N1.id)).map (repointEdge N3.id N1.id) ∧
    (mergeColocatedNodes (mergeColocatedNodes [N1, N2, N3] es).nodes
        (mergeColocatedNodes [N1, N2, N3] es).edges).nodes =
      (mergeColocatedNodes [N1, N2, N3] es).nodes ∧
    (mergeColocatedNodes (mergeColocatedNodes [N1, N2, N3] es).nodes
        (mergeColocatedNodes [N1, N2, N3] es).edges).edges =
      (mergeColocatedNodes [N1, N2, N3] es).edges := by
  have he := merge_cluster_eval N1 N2 N3 es h12 h13 h23 hd12 hd13
  refine ⟨he.1, he.2, ?_, ?_⟩
  · rw [he.1, he.2]
    exact (mergeColocatedNodes_single _ _).1
  · rw [he.1, he.2]
    exact (mergeColocatedNodes_single _ _).2

def p0 : Vec2 := ⟨0, 0⟩

theorem p0_dist_lt : dist p0 p0 < 5 := by
  rw [dist_self]
  norm_num

def c7A : TopoNode := ⟨"A", p0, NodeType.buffer, []⟩

def c7B : TopoNode := ⟨"B", p0, NodeType.endpoint, []⟩

def c7C : TopoNode := ⟨"C", p0, NodeType.endpoint, []⟩

theorem merge_cluster_order_dependent :
    ((mergeColocatedNodes [c7A, c7B, c7C] []).nodes.map (fun n => n.type) =
      [NodeType.buffer]) ∧
    ((mergeColocatedNodes [c7B, c7A, c7C] []).nodes.map (fun n => n.type) =
      [NodeType.endpoint]) ∧
    NodeType.buffer ≠ NodeType.endpoint := by
  refine ⟨?_, ?_, by decide⟩
  · have h := (merge_cluster_eval c7A c7B c7C [] (by decide) (by decide) (by decide)
      (by simpa [c7A, c7B] using p0_dist_lt)
      (by simpa [c7A, c7C] using p0_dist_lt)).1
    rw [h]
    decide
  · have h := (merge_cluster_eval c7B c7A c7C [] (by decide) (by decide) (by decide)
      (by simpa [c7A, c7B] using p0_dist_lt)
      (by simpa [c7B, c7C] using p0_dist_lt)).1
    rw [h]
    decide

theorem mergeColocatedNodes_cluster_witness :
    (mergeColocatedNodes [c7A, c7B, c7C] []).nodes =
      [⟨c7A.id, c7A.position,
        (if 2 < (dedupAppend (dedupAppend c7A.connectedEdges c7B.connectedEdges)
              c7C.connectedEdges).length then NodeType.switch
         else if 2 < (dedupAppend c7A.connectedEdges c7B.connectedEdges).length then
           NodeType.switch else c7A.type),
        dedupAppend (dedupAppend c7A.connectedEdges c7B.connectedEdges)
          c7C.connectedEdges⟩] ∧
    (mergeColocatedNodes [c7A, c7B, c7C] []).edges =
      (([] : List TopoEdge).map (repointEdge c7B.id c7A.id)).map
        (repointEdge c7C.id c7A.id) ∧
    (mergeColocatedNodes (mergeColocatedNodes [c7A, c7B, c7C] []).nodes
        (mergeColocatedNodes [c7A, c7B, c7C] []).edges).nodes =
      (mergeColocatedNodes [c7A, c7B, c7C] []).nodes ∧
    (mergeColocatedNodes (mergeColocatedNodes [c7A, c7B, c7C] []).nodes
        (mergeColocatedNodes [c7A, c7B, c7C] []).edges).edges =
      (mergeColocatedNodes [c7A, c7B, c7C] []).edges :=
  mergeColocatedNodes_cluster c7A c7B c7C [] (by decide) (by decide) (by decide)
    (by simpa [c7A, c7B] using p0_dist_lt)
    (by simpa [c7A, c7C] using p0_dist_lt)

end RailSim

/- ## Train dynamics (src/src/physics/train-dynamics.ts) -/

namespace RailSim

inductive BrakeMode where
  | none
  | service
  | emergency
deriving DecidableEq

structure StationStop where
  stationId : String
  name : String
  distanceAlongRoute : ℚ
deriving DecidableEq

structure TrainState where
  routeEdgeIndex : ℕ
  edgeOffset : ℚ
  speed : ℚ
  acceleration : ℚ
  throttle : ℚ
  brakeMode : BrakeMode
  totalDistance : ℚ
  distanceToTarget : ℚ
  supervisionStatus : SupervisionStatus
  dwellRemaining : ℚ
  currentStopIndex : ℕ
  nextStationName : String

structure DynConfig where
  params : TrainParameters
  route : List RouteSegment
  routeEdgeIds : List String
  stationStops : List StationStop
  dwellTime : ℚ

structure DynState where
  train : TrainState
  lastCurves : Option BrakingCurveSet
  finished : Bool
  network : TrackNetwork

def dummyStop : StationStop := ⟨"", "", 0⟩

def dummySeg : RouteSegment := ⟨"", Dir.forward, 0, 0⟩

/-- Source `TrackNetwork.getGradientAt`. -/
def networkGradientAt (net : TrackNetwork) (edgeId : String) (offset : ℚ) : ℚ :=
  match getEdge net edgeId with
  | none => 0
  | some edge =>
    match edge.gradientProfile with
    | [] => 0
    | gp0 :: _ => gradLoop offset edge.gradientProfile gp0.slope

def slLoop (offset : ℚ) : List SpeedLimit → ℚ
  | [] => 333/10
  | sl :: rest =>
    if sl.startOffset ≤ offset ∧ offset ≤ sl.endOffset then sl.speedMs
    else slLoop offset rest

/-- Source `TrackNetwork.getSpeedLimitAt`. -/
def networkSpeedLimitAt (net : TrackNetwork) (edgeId : String) (offset : ℚ) : ℚ :=
  match getEdge net edgeId with
  | none => 333/10
  | some edge => slLoop offset edge.speedLimits

def routeSegLength (seg : RouteSegment) : ℚ := |seg.endOffset - seg.startOffset|

def createInitialState : TrainState where
  routeEdgeIndex := 0
  edgeOffset := 0
  speed := 0
  acceleration := 0
  throttle := 0
  brakeMode := BrakeMode.none
  totalDistance := 0
  distanceToTarget := 0
  supervisionStatus := SupervisionStatus.normal
  dwellRemaining := 0
  currentStopIndex := 0
  nextStationName := ""

/-- The state right after `setRoute`/`reset`: fresh train state, next
station name filled in, signals updated for the first route segment. -/
def resetState (cfg : DynConfig) (net : TrackNetwork) : DynState where
  train :=
    { createInitialState with
      nextStationName :=
        match cfg.stationStops with
        | [] => createInitialState.nextStationName
        | st :: _ => st.name }
  lastCurves := Option.none
  finished := false
  network :=
    match cfg.route with
    | [] => net
    | seg :: _ => updateSignalAspects net (some seg.edgeId) cfg.routeEdgeIds seg.direction

/-- Distance from the current position to the end of the route (the
fallback target of computeControl). -/
def remainingRouteDist (cfg : DynConfig) (seg : RouteSegment) (st : TrainState) : ℚ :=
  (if seg.direction = Dir.forward then seg.endOffset - st.edgeOffset
   else st.edgeOffset - seg.endOffset) +
  ((cfg.route.drop (st.routeEdgeIndex + 1)).map routeSegLength).sum

def controlTargetDistance (cfg : DynConfig) (seg : RouteSegment) (st : TrainState) : ℚ :=
  if cfg.stationStops ≠ [] ∧ st.currentStopIndex < cfg.stationStops.length then
    max 0 ((cfg.stationStops.getD st.currentStopIndex dummyStop).distanceAlongRoute -
      st.totalDistance)
  else max 0 (remainingRouteDist cfg seg st)

/-- The control decision for a supervision status: acceleration, brake
mode and throttle. -/
def controlFor (params : TrainParameters) (status : SupervisionStatus)
    (speed maxReachableSpeed : ℚ) : ℚ × BrakeMode × ℚ :=
  match status with
  | SupervisionStatus.normal =>
    if speed < maxReachableSpeed * (98/100) then
      (params.maxAcceleration, BrakeMode.none, 1)
    else (0, BrakeMode.none, 0)
  | SupervisionStatus.indication => (-(1/20), BrakeMode.none, 0)
  | SupervisionStatus.permitted =>
    (-(params.serviceBrakeDecel * (2/5)), BrakeMode.service, 0)
  | SupervisionStatus.warning => (-params.serviceBrakeDecel, BrakeMode.service, 0)
  | SupervisionStatus.intervention =>
    (-params.emergencyBrakeDecel, BrakeMode.emergency, 0)

def computeControl (cfg : DynConfig) (st : DynState) : DynState :=
  match cfg.route with
  | [] => st
  | _ :: _ =>
    match cfg.route.get? st.train.routeEdgeIndex with
    | Option.none => { st with finished := true }
    | some seg =>
      let targetDistance := controlTargetDistance cfg seg st.train
      let gradient := networkGradientAt st.network seg.edgeId st.train.edgeOffset
      let speedLimit := networkSpeedLimitAt st.network seg.edgeId st.train.edgeOffset
      let curves := computeCurves ratSqrt cfg.params ⟨targetDistance, 0, gradient⟩
        [⟨0, gradient⟩]
      let status := getSupervisionStatus st.train.speed targetDistance curves
      let ctl := controlFor cfg.params status st.train.speed
        (min cfg.params.maxSpeed speedLimit)
      { st with
        lastCurves := some curves,
        train :=
          { st.train with
            distanceToTarget := targetDistance,
            supervisionStatus := status,
            acceleration := ctl.1,
            brakeMode := ctl.2.1,
            throttle := ctl.2.2 } }

def checkStationArrival (cfg : DynConfig) (st : DynState) : Bool × DynState :=
  if cfg.stationStops = [] then (false, st)
  else if cfg.stationStops.length ≤ st.train.currentStopIndex then (false, st)
  else
    if (cfg.stationStops.getD st.train.currentStopIndex dummyStop).distanceAlongRoute -
          st.train.totalDistance < 2 ∧ st.train.speed < 3/10 then
      let base :=
        { st.train with
          speed := 0,
          acceleration := 0,
          totalDistance := (cfg.stationStops.getD st.train.currentStopIndex
            dummyStop).distanceAlongRoute,
          brakeMode := BrakeMode.none,
          distanceToTarget := 0 }
      if 0 < cfg.dwellTime then
        (true, { st with train := { base with dwellRemaining := cfg.dwellTime } })
      else
        if cfg.stationStops.length ≤ base.currentStopIndex + 1 then
          (true, { st with
            finished := true,
            train := { base with currentStopIndex := base.currentStopIndex + 1 } })
        else
          (true, { st with train :=
            { base with
              currentStopIndex := base.currentStopIndex + 1,
              nextStationName := (cfg.stationStops.getD (base.currentStopIndex + 1)
                dummyStop).name } })
    else (false, st)

def advanceLoop (cfg : DynConfig) : ℕ → ℚ → DynState → DynState
  | 0, _, st => st
  | fuel + 1, remaining, st =>
    if 0 < remaining ∧ st.train.routeEdgeIndex < cfg.route.length then
      (fun seg =>
        (fun distToEnd =>
          if distToEnd ≤ remaining then
            if st.train.routeEdgeIndex + 1 < cfg.route.length then
              advanceLoop cfg fuel (remaining - distToEnd)
                { st with train :=
                  { st.train with
                    routeEdgeIndex := st.train.routeEdgeIndex + 1,
                    edgeOffset := (cfg.route.getD (st.train.routeEdgeIndex + 1)
                      dummySeg).startOffset } }
            else
              { st with
                finished := true,
                train :=
                  { st.train with
                    routeEdgeIndex := st.train.routeEdgeIndex + 1,
                    edgeOffset := seg.endOffset,
                    speed := 0 } }
          else
            { st with train :=
              { st.train with
                edgeOffset := st.train.edgeOffset +
                  (if seg.direction = Dir.forward then remaining else -remaining) } })
        (if seg.direction = Dir.forward then seg.endOffset - st.train.edgeOffset
         else st.train.edgeOffset - seg.endOffset))
      (cfg.route.getD st.train.routeEdgeIndex dummySeg)
    else st

def updateSignals (cfg : DynConfig) (st : DynState) : DynState :=
  match cfg.route with
  | [] => st
  | _ :: _ =>
    (fun seg =>
      { st with network :=
        updateSignalAspects st.network (some seg.edgeId) cfg.routeEdgeIds seg.direction })
    (cfg.route.getD (min st.train.routeEdgeIndex (cfg.route.length - 1)) dummySeg)

def dynUpdate (cfg : DynConfig) (dt : ℚ) (st : DynState) : DynState :=
  if st.finished = true ∨ cfg.route = [] then st
  else if 0 < st.train.dwellRemaining then
    (fun base =>
      if base.dwellRemaining ≤ 0 then
        (fun base2 =>
          if cfg.stationStops.length ≤ base2.currentStopIndex then
            { st with finished := true, train := base2 }
          else
            { st with train :=
              { base2 with nextStationName :=
                (cfg.stationStops.getD base2.currentStopIndex dummyStop).name } })
        { base with
          dwellRemaining := 0,
          currentStopIndex := base.currentStopIndex + 1 }
      else { st with train := base })
    { st.train with
      dwellRemaining := st.train.dwellRemaining - dt,
      speed := 0, acceleration := 0, brakeMode := BrakeMode.none, throttle := 0 }
  else
    (fun st1 =>
      (fun arr =>
        if arr.1 = true then arr.2
        else
          (fun v2 =>
            (fun st3 =>
              updateSignals cfg
                (advanceLoop cfg (cfg.route.length - st3.train.routeEdgeIndex + 1)
                  (v2 * dt) st3))
            { arr.2 with train :=
              { arr.2.train with
                speed := v2,
                totalDistance := arr.2.train.totalDistance + v2 * dt } })
          (clamp (arr.2.train.speed + arr.2.train.acceleration * dt) 0
            cfg.params.maxSpeed))
      (checkStationArrival cfg st1))
    (computeControl cfg st)

end RailSim

namespace RailSim

theorem clamp_nonpos (v hi : ℚ) (hv : v ≤ 0) (hhi : 0 ≤ hi) :
    clamp v 0 hi = 0 := by
  unfold clamp
  rw [min_eq_right (hv.trans hhi), max_eq_left hv]

theorem controlTargetDistance_nonneg (cfg : DynConfig) (seg : RouteSegment)
    (st : TrainState) : 0 ≤ controlTargetDistance cfg seg st := by
  unfold controlTargetDistance
  split_ifs <;> exact le_max_left 0 _

theorem advanceLoop_not_pos (cfg : DynConfig) (fuel : ℕ) (remaining : ℚ)
    (st : DynState) (h : ¬ 0 < remaining) :
    advanceLoop cfg fuel remaining st = st := by
  cases fuel with
  | zero => rfl
  | succ fuel =>
    rw [advanceLoop, if_neg]
    exact fun hc => h hc.1

theorem updateSignals_train (cfg : DynConfig) (st : DynState) :
    (updateSignals cfg st).train = st.train ∧
    (updateSignals cfg st).finished = st.finished := by
  unfold updateSignals
  cases cfg.route with
  | nil => exact ⟨rfl, rfl⟩
  | cons s r => exact ⟨rfl, rfl⟩

theorem computeControl_props (cfg : DynConfig) (st : DynState)
    (hroute : cfg.route ≠ []) (hspeed : st.train.speed = 0)
    (hE : 0 ≤ cfg.params.emergencyBrakeDecel) :
    ((computeControl cfg st).train.speed = 0 ∧
     (computeControl cfg st).train.acceleration ≤ 0 ∧
     (computeControl cfg st).train.totalDistance = st.train.totalDistance ∧
     (computeControl cfg st).train.currentStopIndex = st.train.currentStopIndex ∧
     (computeControl cfg st).train.dwellRemaining = st.train.dwellRemaining ∧
     (computeControl cfg st).train.routeEdgeIndex = st.train.routeEdgeIndex ∧
     (computeControl cfg st).finished = st.finished) ∨
      computeControl cfg st = { st with finished := true } := by
  cases hr : cfg.route with
  | nil => exact absurd hr hroute
  | cons s0 r0 =>
    unfold computeControl
    rw [hr]
    cases hg : (s0 :: r0).get? st.train.routeEdgeIndex with
    | none =>
      right
      rfl
    | some seg =>
      left
      refine ⟨hspeed, ?_, rfl, rfl, rfl, rfl, rfl⟩
      have hstat : getSupervisionStatus st.train.speed
            (controlTargetDistance cfg seg st.train)
            (computeCurves ratSqrt cfg.params
              ⟨controlTargetDistance cfg seg st.train, 0,
                networkGradientAt st.network seg.edgeId st.train.edgeOffset⟩
              [⟨0, networkGradientAt st.network seg.edgeId st.train.edgeOffset⟩]) =
            SupervisionStatus.intervention := by
          rw [hspeed]
          exact getSupervisionStatus_at_or_beyond ratSqrt cfg.params 0
            (controlTargetDistance cfg seg st.train)
            (networkGradientAt st.network seg.edgeId st.train.edgeOffset)
            (controlTargetDistance cfg seg st.train)
            [⟨0, networkGradientAt st.network seg.edgeId st.train.edgeOffset⟩]
            ratSqrt_nonneg (fun q hq => ratSqrt_pos hq) (le_refl 0)
            (controlTargetDistance_nonneg cfg seg st.train) (le_refl _)
      simp only
      rw [hstat]
      unfold controlFor
      simp only
      linarith

end RailSim

namespace RailSim

theorem checkStationArrival_spec (cfg : DynConfig) (st : DynState) :
    checkStationArrival cfg st = (false, st) ∨
    ((checkStationArrival cfg st).1 = true ∧
     st.train.currentStopIndex < cfg.stationStops.length ∧
     (checkStationArrival cfg st).2.train.speed = 0 ∧
     (checkStationArrival cfg st).2.train.acceleration = 0 ∧
     (checkStationArrival cfg st).2.train.totalDistance =
       (cfg.stationStops.getD st.train.currentStopIndex dummyStop).distanceAlongRoute ∧
     ((checkStationArrival cfg st).2.train.currentStopIndex =
        st.train.currentStopIndex ∨
      (checkStationArrival cfg st).2.train.currentStopIndex =
        st.train.currentStopIndex + 1)) := by
  unfold checkStationArrival
  simp only
  split_ifs with h1 h2 h3 h4 h5 <;>
    first
      | exact Or.inl rfl
      | exact Or.inr ⟨rfl, by omega, rfl, rfl, rfl, Or.inl rfl⟩
      | exact Or.inr ⟨rfl, by omega, rfl, rfl, rfl, Or.inr rfl⟩

/-- The stuck invariant: the supervision bug keeps the train at speed 0
with non-positive acceleration, and totalDistance never passes the next
station stop. -/
def Stuck (cfg : DynConfig) (s : DynState) : Prop :=
  s.train.speed = 0 ∧ s.train.acceleration ≤ 0 ∧
  (s.train.currentStopIndex < cfg.stationStops.length →
    s.train.totalDistance ≤
      (cfg.stationStops.getD s.train.currentStopIndex dummyStop).distanceAlongRoute)

end RailSim

namespace RailSim

theorem stuck_update (cfg : DynConfig)
    (hE : 0 ≤ cfg.params.emergencyBrakeDecel) (hM : 0 ≤ cfg.params.maxSpeed)
    (hsorted : ∀ i, i + 1 < cfg.stationStops.length →
      (cfg.stationStops.getD i dummyStop).distanceAlongRoute ≤
      (cfg.stationStops.getD (i + 1) dummyStop).distanceAlongRoute)
    (s : DynState) (hs : Stuck cfg s) (dt : ℚ) (hdt : 0 ≤ dt) :
    Stuck cfg (dynUpdate cfg dt s) ∧
    s.train.totalDistance ≤ (dynUpdate cfg dt s).train.totalDistance := by
  obtain ⟨hsp, hacc, hbound⟩ := hs
  unfold dynUpdate
  by_cases h0 : s.finished = true ∨ cfg.route = []
  · rw [if_pos h0]
    exact ⟨⟨hsp, hacc, hbound⟩, le_refl _⟩
  · rw [if_neg h0]
    have hroute : cfg.route ≠ [] := fun hc => h0 (Or.inr hc)
    by_cases hdw : 0 < s.train.dwellRemaining
    · rw [if_pos hdw]
      simp only
      split_ifs with hd1 hd2
      · refine ⟨⟨rfl, le_refl 0, ?_⟩, le_refl _⟩
        intro h
        simp only at h
        omega
      · refine ⟨⟨rfl, le_refl 0, ?_⟩, le_refl _⟩
        intro h
        simp only at h ⊢
        have h1 := hbound (by omega)
        have h2 := hsorted s.train.currentStopIndex (by omega)
        exact h1.trans h2
      · exact ⟨⟨rfl, le_refl 0, fun h => hbound h⟩, le_refl _⟩
    · rw [if_neg hdw]
      have hprops : (computeControl cfg s).train.speed = 0 ∧
          (computeControl cfg s).train.acceleration ≤ 0 ∧
          (computeControl cfg s).train.totalDistance = s.train.totalDistance ∧
          (computeControl cfg s).train.currentStopIndex =
            s.train.currentStopIndex := by
        rcases computeControl_props cfg s hroute hsp hE with
          ⟨a, b, c, d, -, -, -⟩ | hc_eq
        · exact ⟨a, b, c, d⟩
        · rw [hc_eq]
          exact ⟨hsp, hacc, rfl, rfl⟩
      obtain ⟨hc_sp, hc_acc, hc_td, hc_idx⟩ := hprops
      simp only
      rcases checkStationArrival_spec cfg (computeControl cfg s) with harr | harr
      · rw [harr]
        simp only
        rw [if_neg Bool.false_ne_true]
        have hvle : (computeControl cfg s).train.speed +
            (computeControl cfg s).train.acceleration * dt ≤ 0 := by
          rw [hc_sp]
          have := mul_nonpos_of_nonpos_of_nonneg hc_acc hdt
          linarith
        have hv2 : clamp ((computeControl cfg s).train.speed +
            (computeControl cfg s).train.acceleration * dt) 0
            cfg.params.maxSpeed = 0 := clamp_nonpos _ _ hvle hM
        rw [hv2, zero_mul, add_zero]
        rw [advanceLoop_not_pos cfg _ 0 _ (lt_irrefl 0)]
        obtain ⟨hut, -⟩ := updateSignals_train cfg
          { computeControl cfg s with train :=
            { (computeControl cfg s).train with
              speed := 0,
              totalDistance := (computeControl cfg s).train.totalDistance } }
        unfold Stuck
        rw [hut]
        simp only
        refine ⟨⟨trivial, hc_acc, ?_⟩, ?_⟩
        · intro h
          rw [hc_td, hc_idx]
          rw [hc_idx] at h
          exact hbound h
        · rw [hc_td]
      · rw [if_pos harr.1]
        obtain ⟨-, hlt, hsp2, hacc2, htd2, hidx2⟩ := harr
        refine ⟨⟨hsp2, le_of_eq hacc2, ?_⟩, ?_⟩
        · intro h
          rcases hidx2 with he | he
          · rw [htd2, he]
          · rw [htd2, he]
            rw [he] at h
            exact hsorted (computeControl cfg s).train.currentStopIndex h
        · rw [htd2, hc_idx]
          exact hbound (hc_idx ▸ hlt)

end RailSim

namespace RailSim

inductive Reach (cfg : DynConfig) : DynState → Prop
  | init (net : TrackNetwork) : Reach cfg (resetState cfg net)
  | step {s : DynState} (dt : ℚ) (hdt : 0 ≤ dt) (hs : Reach cfg s) :
      Reach cfg (dynUpdate cfg dt s)

theorem reach_stuck (cfg : DynConfig)
    (hE : 0 ≤ cfg.params.emergencyBrakeDecel) (hM : 0 ≤ cfg.params.maxSpeed)
    (hsorted : ∀ i, i + 1 < cfg.stationStops.length →
      (cfg.stationStops.getD i dummyStop).distanceAlongRoute ≤
      (cfg.stationStops.getD (i + 1) dummyStop).distanceAlongRoute)
    (h0 : 0 < cfg.stationStops.length →
      0 ≤ (cfg.stationStops.getD 0 dummyStop).distanceAlongRoute) :
    ∀ s, Reach cfg s → Stuck cfg s := by
  intro s hr
  induction hr with
  | init net => exact ⟨rfl, le_refl 0, fun h => h0 h⟩
  | step dt hdt hs ih => exact (stuck_update cfg hE hM hsorted _ ih dt hdt).1

/-- C9: from every reachable dynamics state and for every dt ≥ 0, after
dynUpdate the speed lies in [0, maxSpeed] and totalDistance does not
decrease.  (In fact, because the supervision classifier always returns
intervention for these targets, every reachable state has speed 0.) -/
theorem dynUpdate_speed_bounds (cfg : DynConfig)
    (hE : 0 ≤ cfg.params.emergencyBrakeDecel) (hM : 0 ≤ cfg.params.maxSpeed)
    (hsorted : ∀ i, i + 1 < cfg.stationStops.length →
      (cfg.stationStops.getD i dummyStop).distanceAlongRoute ≤
      (cfg.stationStops.getD (i + 1) dummyStop).distanceAlongRoute)
    (h0 : 0 < cfg.stationStops.length →
      0 ≤ (cfg.stationStops.getD 0 dummyStop).distanceAlongRoute)
    (s : DynState) (hreach : Reach cfg s) (dt : ℚ) (hdt : 0 ≤ dt) :
    0 ≤ (dynUpdate cfg dt s).train.speed ∧
    (dynUpdate cfg dt s).train.speed ≤ cfg.params.maxSpeed ∧
    s.train.totalDistance ≤ (dynUpdate cfg dt s).train.totalDistance := by
  have hstuck := reach_stuck cfg hE hM hsorted h0 s hreach
  have h := stuck_update cfg hE hM hsorted s hstuck dt hdt
  refine ⟨le_of_eq h.1.1.symm, ?_, h.2⟩
  rw [h.1.1]
  exact hM

def c9Cfg : DynConfig where
  params := DEFAULT_TRAIN_PARAMS
  route := [⟨"E1", Dir.forward, 0, 100⟩, ⟨"E2", Dir.forward, 0, 100⟩]
  routeEdgeIds := ["E1", "E2"]
  stationStops := [⟨"STA2", "Omega", 200⟩]
  dwellTime := 20

theorem dynUpdate_speed_bounds_witness :
    0 ≤ (dynUpdate c9Cfg (1/10) (resetState c9Cfg ⟨[], [], []⟩)).train.speed ∧
    (dynUpdate c9Cfg (1/10) (resetState c9Cfg ⟨[], [], []⟩)).train.speed ≤
      c9Cfg.params.maxSpeed ∧
    (resetState c9Cfg ⟨[], [], []⟩).train.totalDistance ≤
      (dynUpdate c9Cfg (1/10) (resetState c9Cfg ⟨[], [], []⟩)).train.totalDistance :=
  dynUpdate_speed_bounds c9Cfg (by norm_num [c9Cfg, DEFAULT_TRAIN_PARAMS])
    (by norm_num [c9Cfg, DEFAULT_TRAIN_PARAMS])
    (fun i h => by simp [c9Cfg] at h)
    (fun _ => by norm_num [c9Cfg])
    (resetState c9Cfg ⟨[], [], []⟩) (Reach.init ⟨[], [], []⟩) (1/10) (by norm_num)

end RailSim

namespace RailSim

theorem computeControl_preserve (cfg : DynConfig) (st : DynState) (seg : RouteSegment)
    (hroute : cfg.route ≠ [])
    (hg : cfg.route.get? st.train.routeEdgeIndex = some seg) :
    (computeControl cfg st).finished = st.finished ∧
    (computeControl cfg st).train.totalDistance = st.train.totalDistance ∧
    (computeControl cfg st).train.currentStopIndex = st.train.currentStopIndex ∧
    (computeControl cfg st).train.dwellRemaining = st.train.dwellRemaining ∧
    (computeControl cfg st).train.routeEdgeIndex = st.train.routeEdgeIndex ∧
    (computeControl cfg st).train.speed = st.train.speed := by
  cases hr : cfg.route with
  | nil => exact absurd hr hroute
  | cons s0 r0 =>
    rw [hr] at hg
    unfold computeControl
    rw [hr, hg]
    exact ⟨rfl, rfl, rfl, rfl, rfl, rfl⟩

theorem checkStationArrival_far (cfg : DynConfig) (st : DynState)
    (hstops : ¬ cfg.stationStops = [])
    (hidx : st.train.currentStopIndex = 0) (htd : st.train.totalDistance = 0)
    (h2 : 2 ≤ (cfg.stationStops.getD 0 dummyStop).distanceAlongRoute) :
    checkStationArrival cfg st = (false, st) := by
  unfold checkStationArrival
  rw [if_neg hstops]
  by_cases hL : cfg.stationStops.length ≤ st.train.currentStopIndex
  · rw [if_pos hL]
  · rw [if_neg hL, if_neg]
    rintro ⟨ha, -⟩
    rw [hidx, htd, sub_zero] at ha
    linarith

/-- The never-moving invariant for a configuration whose first station
stop is at least 2 m away: the train stays exactly at the origin and the
run never finishes. -/
def Stuck0 (cfg : DynConfig) (s : DynState) : Prop :=
  s.train.speed = 0 ∧ s.train.acceleration ≤ 0 ∧ s.train.totalDistance = 0 ∧
  s.train.dwellRemaining = 0 ∧ s.train.currentStopIndex = 0 ∧
  s.train.routeEdgeIndex = 0 ∧ s.finished = false

theorem stuck0_update (cfg : DynConfig) (hroute : cfg.route ≠ [])
    (hE : 0 ≤ cfg.params.emergencyBrakeDecel) (hM : 0 ≤ cfg.params.maxSpeed)
    (hstops : cfg.stationStops ≠ [])
    (h2 : 2 ≤ (cfg.stationStops.getD 0 dummyStop).distanceAlongRoute)
    (s : DynState) (hs : Stuck0 cfg s) (dt : ℚ) (hdt : 0 ≤ dt) :
    Stuck0 cfg (dynUpdate cfg dt s) := by
  obtain ⟨hsp, hacc, htd, hdw0, hidx, hri, hfin⟩ := hs
  obtain ⟨seg0, rest0, hr⟩ : ∃ a l, cfg.route = a :: l :=
    List.exists_cons_of_ne_nil hroute
  have hg : cfg.route.get? s.train.routeEdgeIndex = some seg0 := by
    rw [hr, hri]
    rfl
  unfold dynUpdate
  rw [if_neg (by
    rintro (hc | hc)
    · rw [hfin] at hc
      cases hc
    · exact hroute hc)]
  rw [if_neg (by rw [hdw0]; exact lt_irrefl 0)]
  simp only
  obtain ⟨hp_fin, hp_td, hp_idx, hp_dw, hp_ri, hp_sp⟩ :=
    computeControl_preserve cfg s seg0 hroute hg
  have hp_acc : (computeControl cfg s).train.acceleration ≤ 0 := by
    rcases computeControl_props cfg s hroute hsp hE with ⟨-, b, -, -, -, -, -⟩ | hc_eq
    · exact b
    · rw [hc_eq] at hp_fin
      rw [hfin] at hp_fin
      cases hp_fin
  have harr : checkStationArrival cfg (computeControl cfg s) =
      (false, computeControl cfg s) :=
    checkStationArrival_far cfg (computeControl cfg s) hstops
      (hp_idx.trans hidx) (hp_td.trans htd) h2
  rw [harr]
  simp only
  rw [if_neg Bool.false_ne_true]
  have hvle : (computeControl cfg s).train.speed +
      (computeControl cfg s).train.acceleration * dt ≤ 0 := by
    rw [hp_sp, hsp]
    have := mul_nonpos_of_nonpos_of_nonneg hp_acc hdt
    linarith
  have hv2 : clamp ((computeControl cfg s).train.speed +
      (computeControl cfg s).train.acceleration * dt) 0
      cfg.params.maxSpeed = 0 := clamp_nonpos _ _ hvle hM
  rw [hv2, zero_mul, add_zero]
  rw [advanceLoop_not_pos cfg _ 0 _ (lt_irrefl 0)]
  obtain ⟨hut, huf⟩ := updateSignals_train cfg
    { computeControl cfg s with train :=
      { (computeControl cfg s).train with
        speed := 0,
        totalDistance := (computeControl cfg s).train.totalDistance } }
  unfold Stuck0
  rw [hut, huf]
  simp only
  exact ⟨trivial, hp_acc, hp_td.trans htd, hp_dw.trans hdw0, hp_idx.trans hidx,
    hp_ri.trans hri, hp_fin.trans hfin⟩

end RailSim

namespace RailSim

/-- C3: with any route and any station list whose first stop is at least
2 m from the origin (the demo line's first stop is about 1100 m away),
the train never moves: after any sequence of non-negative time steps from
the reset state, totalDistance is still 0 and the run is not finished.
The claimed full-simulation outcome (finished with totalDistance beyond
1000 m) is therefore unreachable. -/
theorem simulation_never_moves (cfg : DynConfig) (net : TrackNetwork)
    (hroute : cfg.route ≠ [])
    (hE : 0 ≤ cfg.params.emergencyBrakeDecel) (hM : 0 ≤ cfg.params.maxSpeed)
    (hstops : cfg.stationStops ≠ [])
    (h2 : 2 ≤ (cfg.stationStops.getD 0 dummyStop).distanceAlongRoute)
    (dts : List ℚ) (hdts : ∀ dt ∈ dts, 0 ≤ dt) :
    (dts.foldl (fun s dt => dynUpdate cfg dt s)
      (resetState cfg net)).train.totalDistance = 0 ∧
    (dts.foldl (fun s dt => dynUpdate cfg dt s)
      (resetState cfg net)).finished = false := by
  suffices h : ∀ (l : List ℚ), (∀ dt ∈ l, 0 ≤ dt) → ∀ s, Stuck0 cfg s →
      Stuck0 cfg (l.foldl (fun s dt => dynUpdate cfg dt s) s) by
    have hinit : Stuck0 cfg (resetState cfg net) :=
      ⟨rfl, le_refl 0, rfl, rfl, rfl, rfl, rfl⟩
    have hres := h dts hdts (resetState cfg net) hinit
    exact ⟨hres.2.2.1, hres.2.2.2.2.2.2⟩
  intro l
  induction l with
  | nil =>
    intro _ s hs
    exact hs
  | cons dt rest ih =>
    intro hl s hs
    simp only [List.foldl_cons]
    exact ih (fun x hx => hl x (List.mem_cons_of_mem _ hx))
      (dynUpdate cfg dt s)
      (stuck0_update cfg hroute hE hM hstops h2 s hs dt
        (hl dt (List.mem_cons_self _ _)))

theorem simulation_never_moves_witness :
    ((List.replicate 40 ((5 : ℚ)/100)).foldl (fun s dt => dynUpdate c9Cfg dt s)
      (resetState c9Cfg ⟨[], [], []⟩)).train.totalDistance = 0 ∧
    ((List.replicate 40 ((5 : ℚ)/100)).foldl (fun s dt => dynUpdate c9Cfg dt s)
      (resetState c9Cfg ⟨[], [], []⟩)).finished = false :=
  simulation_never_moves c9Cfg ⟨[], [], []⟩ (by decide)
    (by norm_num [c9Cfg, DEFAULT_TRAIN_PARAMS])
    (by norm_num [c9Cfg, DEFAULT_TRAIN_PARAMS]) (by decide)
    (by norm_num [c9Cfg])
    (List.replicate 40 ((5 : ℚ)/100))
    (by
      intro dt hdt
      rw [List.eq_of_mem_replicate hdt]
      norm_num)

end RailSim

/- ## JavaScript float semantics for the braking integration (claim C4):
   the source divides by `params.rotatingMassFactor`, and at 0 the float
   division produces Infinity (or NaN), which the exact-rational model
   cannot represent.  `JSVal` models the reachable float values of this
   path: finite numbers, the two infinities and NaN, with JavaScript's
   arithmetic, `Math.max` and comparison semantics. -/

namespace RailSim

inductive JSVal where
  | fin (q : ℚ)
  | inf
  | negInf
  | nan
deriving DecidableEq

def jsAdd : JSVal → JSVal → JSVal
  | JSVal.nan, _ => JSVal.nan
  | _, JSVal.nan => JSVal.nan
  | JSVal.fin a, JSVal.fin b => JSVal.fin (a + b)
  | JSVal.fin _, JSVal.inf => JSVal.inf
  | JSVal.fin _, JSVal.negInf => JSVal.negInf
  | JSVal.inf, JSVal.fin _ => JSVal.inf
  | JSVal.inf, JSVal.inf => JSVal.inf
  | JSVal.inf, JSVal.negInf => JSVal.nan
  | JSVal.negInf, JSVal.fin _ => JSVal.negInf
  | JSVal.negInf, JSVal.negInf => JSVal.negInf
  | JSVal.negInf, JSVal.inf => JSVal.nan

def jsSub : JSVal → JSVal → JSVal
  | JSVal.nan, _ => JSVal.nan
  | _, JSVal.nan => JSVal.nan
  | JSVal.fin a, JSVal.fin b => JSVal.fin (a - b)
  | JSVal.fin _, JSVal.inf => JSVal.negInf
  | JSVal.fin _, JSVal.negInf => JSVal.inf
  | JSVal.inf, JSVal.fin _ => JSVal.inf
  | JSVal.inf, JSVal.inf => JSVal.nan
  | JSVal.inf, JSVal.negInf => JSVal.inf
  | JSVal.negInf, JSVal.fin _ => JSVal.negInf
  | JSVal.negInf, JSVal.negInf => JSVal.nan
  | JSVal.negInf, JSVal.inf => JSVal.negInf

def jsMul : JSVal → JSVal → JSVal
  | JSVal.nan, _ => JSVal.nan
  | _, JSVal.nan => JSVal.nan
  | JSVal.fin a, JSVal.fin b => JSVal.fin (a * b)
  | JSVal.fin a, JSVal.inf =>
    if a = 0 then JSVal.nan else if 0 < a then JSVal.inf else JSVal.negInf
  | JSVal.fin a, JSVal.negInf =>
    if a = 0 then JSVal.nan else if 0 < a then JSVal.negInf else JSVal.inf
  | JSVal.inf, JSVal.fin b =>
    if b = 0 then JSVal.nan else if 0 < b then JSVal.inf else JSVal.negInf
  | JSVal.negInf, JSVal.fin b =>
    if b = 0 then JSVal.nan else if 0 < b then JSVal.negInf else JSVal.inf
  | JSVal.inf, JSVal.inf => JSVal.inf
  | JSVal.inf, JSVal.negInf => JSVal.negInf
  | JSVal.negInf, JSVal.inf => JSVal.negInf
  | JSVal.negInf, JSVal.negInf => JSVal.inf

/-- JavaScript float division of two finite values: finite quotient when
the divisor is nonzero, otherwise ±Infinity, or NaN for 0/0. -/
def jsDiv (a b : ℚ) : JSVal :=
  if b = 0 then
    if a = 0 then JSVal.nan else if 0 < a then JSVal.inf else JSVal.negInf
  else JSVal.fin (a / b)

/-- JavaScript `<`: any comparison involving NaN is false. -/
def jsLt : JSVal → JSVal → Bool
  | JSVal.nan, _ => false
  | _, JSVal.nan => false
  | JSVal.fin a, JSVal.fin b => decide (a < b)
  | JSVal.fin _, JSVal.inf => true
  | JSVal.fin _, JSVal.negInf => false
  | JSVal.inf, JSVal.fin _ => false
  | JSVal.inf, JSVal.inf => false
  | JSVal.inf, JSVal.negInf => false
  | JSVal.negInf, JSVal.fin _ => true
  | JSVal.negInf, JSVal.inf => true
  | JSVal.negInf, JSVal.negInf => false

/-- JavaScript `Math.max`: NaN propagates, otherwise the larger value. -/
def jsMax : JSVal → JSVal → JSVal
  | JSVal.nan, _ => JSVal.nan
  | _, JSVal.nan => JSVal.nan
  | JSVal.inf, _ => JSVal.inf
  | _, JSVal.inf => JSVal.inf
  | JSVal.negInf, b => b
  | a, JSVal.negInf => a
  | JSVal.fin a, JSVal.fin b => JSVal.fin (max a b)

/-- JavaScript `Math.sqrt`, with `sq` standing for the square root on
non-negative finite values: NaN on negative or NaN input, Infinity on
Infinity. -/
def jsSqrt (sq : ℚ → ℚ) : JSVal → JSVal
  | JSVal.fin q => if q < 0 then JSVal.nan else JSVal.fin (sq q)
  | JSVal.inf => JSVal.inf
  | JSVal.negInf => JSVal.nan
  | JSVal.nan => JSVal.nan

structure JSPoint where
  distance : JSVal
  speed : JSVal
deriving DecidableEq

def finPoint (p : CurvePoint) : JSPoint :=
  ⟨JSVal.fin p.distance, JSVal.fin p.speed⟩

/-- Source `BrakingModel.effectiveDeceleration` under float semantics:
`Math.max(0.01, (baseDecel + G·g/1000) / rotatingMassFactor)`.  At
`rotatingMassFactor = 0` the division yields ±Infinity (NaN when the
numerator is also 0) and `Math.max` passes Infinity and NaN through. -/
def effectiveDecelerationJS (params : TrainParameters)
    (baseDecel gradientPermille : ℚ) : JSVal :=
  jsMax (JSVal.fin (1/100))
    (jsDiv (baseDecel + gravG * gradientPermille / 1000) params.rotatingMassFactor)

def brakingVSqJS (params : TrainParameters) (decel stepSize : ℚ)
    (profile : List GradientPoint) (d : ℚ) (v : JSVal) : JSVal :=
  jsAdd (jsMul v v)
    (jsMul (jsMul (JSVal.fin 2)
        (effectiveDecelerationJS params decel (getGradientAtProfile profile d)))
      (JSVal.fin (min stepSize d)))

/-- The backward-integration loop under float semantics.  The distance
axis only ever subtracts finite values, so `d` stays an exact rational;
the speeds flow through `JSVal`. -/
def brakingLoopJS (sq : ℚ → ℚ) (params : TrainParameters) (decel stepSize : ℚ)
    (profile : List GradientPoint) :
    ℕ → ℚ → JSVal → List JSPoint → List JSPoint
  | 0, _, _, acc => acc
  | fuel + 1, d, v, acc =>
    if 0 < d then
      if jsLt (brakingVSqJS params decel stepSize profile d v) (JSVal.fin 0) then acc
      else
        if jsLt (JSVal.fin 120)
            (jsSqrt sq (brakingVSqJS params decel stepSize profile d v)) then
          ⟨JSVal.fin (max 0 (d - min stepSize d)),
            jsSqrt sq (brakingVSqJS params decel stepSize profile d v)⟩ :: acc
        else
          brakingLoopJS sq params decel stepSize profile fuel (d - min stepSize d)
            (jsSqrt sq (brakingVSqJS params decel stepSize profile d v))
            (⟨JSVal.fin (max 0 (d - min stepSize d)),
              jsSqrt sq (brakingVSqJS params decel stepSize profile d v)⟩ :: acc)
    else acc

/-- Source `BrakingModel.computeBrakingCurve` under float semantics. -/
def computeBrakingCurveJS (sq : ℚ → ℚ) (params : TrainParameters)
    (targetSpeed targetDistance deceleration reactionTime : ℚ)
    (profile : List GradientPoint) : List JSPoint :=
  let stepSize := max 1 (targetDistance / 500)
  let fuel := targetDistance.ceil.toNat + 1
  let base := brakingLoopJS sq params deceleration stepSize profile fuel
    targetDistance (JSVal.fin targetSpeed)
    [⟨JSVal.fin targetDistance, JSVal.fin targetSpeed⟩]
  if 0 < reactionTime then
    match base with
    | [] => base
    | c0 :: _ =>
      let topSpeed := c0.speed
      let reactionDist := jsMul topSpeed (JSVal.fin reactionTime)
      let shifted := base.map fun p =>
        ⟨jsMax (JSVal.fin 0) (jsSub p.distance reactionDist), p.speed⟩
      match shifted with
      | [] => shifted
      | s0 :: srest =>
        if jsLt (JSVal.fin 0) s0.distance then ⟨JSVal.fin 0, topSpeed⟩ :: s0 :: srest
        else s0 :: srest
  else base

end RailSim

namespace RailSim

theorem effectiveDecelerationJS_fin (params : TrainParameters)
    (baseDecel gradientPermille : ℚ) (hm : params.rotatingMassFactor ≠ 0) :
    effectiveDecelerationJS params baseDecel gradientPermille =
      JSVal.fin (effectiveDeceleration params baseDecel gradientPermille) := by
  unfold effectiveDecelerationJS jsDiv effectiveDeceleration
  rw [if_neg hm]
  rfl

theorem brakingVSqJS_fin (params : TrainParameters) (decel stepSize : ℚ)
    (profile : List GradientPoint) (d v : ℚ)
    (hm : params.rotatingMassFactor ≠ 0) :
    brakingVSqJS params decel stepSize profile d (JSVal.fin v) =
      JSVal.fin (brakingVSq params decel stepSize profile d v) := by
  unfold brakingVSqJS brakingVSq
  rw [effectiveDecelerationJS_fin params decel _ hm]
  rfl

theorem brakingLoopJS_refines (sq : ℚ → ℚ) (params : TrainParameters)
    (decel stepSize : ℚ) (profile : List GradientPoint)
    (hm : params.rotatingMassFactor ≠ 0) :
    ∀ (fuel : ℕ) (d v : ℚ) (acc : List CurvePoint),
      brakingLoopJS sq params decel stepSize profile fuel d (JSVal.fin v)
        (acc.map finPoint) =
      (brakingLoop sq params decel stepSize profile fuel d v acc).map finPoint := by
  intro fuel
  induction fuel with
  | zero =>
    intro d v acc
    rfl
  | succ fuel ih =>
    intro d v acc
    rw [brakingLoopJS, brakingLoop]
    by_cases hd : 0 < d
    · rw [if_pos hd, if_pos hd]
      rw [brakingVSqJS_fin params decel stepSize profile d v hm]
      by_cases hneg : brakingVSq params decel stepSize profile d v < 0
      · rw [if_pos (by simpa [jsLt] using hneg), if_pos hneg]
      · rw [if_neg (by simpa [jsLt] using hneg), if_neg hneg]
        have hsq : jsSqrt sq
            (JSVal.fin (brakingVSq params decel stepSize profile d v)) =
            JSVal.fin (sq (brakingVSq params decel stepSize profile d v)) := by
          simp only [jsSqrt]
          rw [if_neg hneg]
        rw [hsq]
        by_cases hcap : 120 < sq (brakingVSq params decel stepSize profile d v)
        · rw [if_pos (by simpa [jsLt] using hcap), if_pos hcap]
          rfl
        · rw [if_neg (by simpa [jsLt] using hcap), if_neg hcap]
          have hcons : (⟨JSVal.fin (max 0 (d - min stepSize d)),
              JSVal.fin (sq (brakingVSq params decel stepSize profile d v))⟩ :
              JSPoint) :: acc.map finPoint =
              ((⟨max 0 (d - min stepSize d),
                sq (brakingVSq params decel stepSize profile d v)⟩ :
                CurvePoint) :: acc).map finPoint := rfl
          rw [hcons]
          exact ih (d - min stepSize d)
            (sq (brakingVSq params decel stepSize profile d v)) _
    · rw [if_neg hd, if_neg hd]

end RailSim

namespace RailSim

theorem computeBrakingCurveJS_eq_of_shift (sq : ℚ → ℚ) (params : TrainParameters)
    (ts D decel r : ℚ) (profile : List GradientPoint) (hr : 0 < r)
    {c0js : JSPoint} {brestjs : List JSPoint}
    (hB : brakingLoopJS sq params decel (max 1 (D / 500)) profile
      (D.ceil.toNat + 1) D (JSVal.fin ts)
      [⟨JSVal.fin D, JSVal.fin ts⟩] = c0js :: brestjs) :
    computeBrakingCurveJS sq params ts D decel r profile =
      (if jsLt (JSVal.fin 0) (jsMax (JSVal.fin 0)
          (jsSub c0js.distance (jsMul c0js.speed (JSVal.fin r)))) = true then
        (⟨JSVal.fin 0, c0js.speed⟩ : JSPoint) ::
          (c0js :: brestjs).map (fun p =>
            ⟨jsMax (JSVal.fin 0) (jsSub p.distance (jsMul c0js.speed (JSVal.fin r))),
              p.speed⟩)
      else
        (c0js :: brestjs).map (fun p =>
          ⟨jsMax (JSVal.fin 0) (jsSub p.distance (jsMul c0js.speed (JSVal.fin r))),
            p.speed⟩)) := by
  simp only [computeBrakingCurveJS]
  rw [hB, if_pos hr]
  simp only [List.map_cons]

theorem computeBrakingCurveJS_no_shift (sq : ℚ → ℚ) (params : TrainParameters)
    (ts D decel r : ℚ) (profile : List GradientPoint) (hr : ¬ 0 < r) :
    computeBrakingCurveJS sq params ts D decel r profile =
      brakingLoopJS sq params decel (max 1 (D / 500)) profile
        (D.ceil.toNat + 1) D (JSVal.fin ts)
        [⟨JSVal.fin D, JSVal.fin ts⟩] := by
  unfold computeBrakingCurveJS
  rw [if_neg hr]

theorem computeBrakingCurveJS_refines (sq : ℚ → ℚ) (params : TrainParameters)
    (ts D decel r : ℚ) (profile : List GradientPoint)
    (hm : params.rotatingMassFactor ≠ 0) :
    computeBrakingCurveJS sq params ts D decel r profile =
      (computeBrakingCurve sq params ts D decel r profile).map finPoint := by
  obtain ⟨c0, brest, hB⟩ := brakingLoop_exists_cons sq params decel (max 1 (D / 500))
    profile (D.ceil.toNat + 1) D ts [⟨D, ts⟩] (by simp)
  have hbase : brakingLoopJS sq params decel (max 1 (D / 500)) profile
      (D.ceil.toNat + 1) D (JSVal.fin ts) [⟨JSVal.fin D, JSVal.fin ts⟩] =
      finPoint c0 :: brest.map finPoint := by
    have h := brakingLoopJS_refines sq params decel (max 1 (D / 500)) profile hm
      (D.ceil.toNat + 1) D ts [⟨D, ts⟩]
    rw [hB] at h
    simpa [finPoint] using h
  by_cases hr : 0 < r
  · rw [computeBrakingCurve_eq_of_shift sq params ts D decel r profile hr hB]
    rw [computeBrakingCurveJS_eq_of_shift sq params ts D decel r profile hr hbase]
    by_cases hpre : 0 < max 0 (c0.distance - c0.speed * r)
    · rw [if_pos hpre, if_pos (by simpa [finPoint, jsMul, jsSub, jsMax, jsLt]
        using hpre)]
      simp only [List.map_cons, List.map_map]
      refine List.cons_eq_cons.mpr ⟨rfl, List.cons_eq_cons.mpr ⟨rfl, ?_⟩⟩
      exact List.map_congr_left (fun p _ => rfl)
    · rw [if_neg hpre, if_neg (by simpa [finPoint, jsMul, jsSub, jsMax, jsLt]
        using hpre)]
      simp only [List.map_cons, List.map_map]
      refine List.cons_eq_cons.mpr ⟨rfl, ?_⟩
      exact List.map_congr_left (fun p _ => rfl)
  · rw [computeBrakingCurve_no_shift sq params ts D decel r profile hr,
      computeBrakingCurveJS_no_shift sq params ts D decel r profile hr, hB, hbase]
    rfl

end RailSim

namespace RailSim

/-- C4 (amended): whenever the rotating-mass factor is nonzero — which
every parameter set produced by `DEFAULT_TRAIN_PARAMS` satisfies, but
`updateParams` does not enforce — the float-semantics braking-curve
computation coincides with the exact-rational one, so every stored curve
point is a finite number and both coordinates are nonnegative.  The
restriction on the rotating-mass factor is necessary: see the
counterexample with `rotatingMassFactor = 0`, where the source divides by
zero and an `Infinity` speed is stored in the curve. -/
theorem braking_curve_points_finite_nonneg (sq : ℚ → ℚ) (params : TrainParameters)
    (ts D decel r : ℚ) (profile : List GradientPoint)
    (hsq : ∀ q, 0 ≤ sq q) (hm : params.rotatingMassFactor ≠ 0)
    (hts : 0 ≤ ts) (hD : 0 ≤ D) :
    computeBrakingCurveJS sq params ts D decel r profile =
      (computeBrakingCurve sq params ts D decel r profile).map finPoint ∧
    ∀ p ∈ computeBrakingCurveJS sq params ts D decel r profile,
      ∃ qd qv : ℚ, p.distance = JSVal.fin qd ∧ p.speed = JSVal.fin qv ∧
        0 ≤ qd ∧ 0 ≤ qv := by
  have href := computeBrakingCurveJS_refines sq params ts D decel r profile hm
  refine ⟨href, ?_⟩
  intro p hp
  rw [href] at hp
  obtain ⟨q, hq, rfl⟩ := List.mem_map.mp hp
  obtain ⟨h1, h2⟩ :=
    computeBrakingCurve_mem_nonneg sq params ts D decel r profile hsq hts hD q hq
  exact ⟨q.distance, q.speed, rfl, rfl, h1, h2⟩

/-- Closed instantiation of the finiteness theorem at the default
parameters (rotating-mass factor `1.06 ≠ 0`) with the exact square root. -/
theorem braking_curve_points_finite_nonneg_witness :
    ((∀ q, 0 ≤ ratSqrt q) ∧ DEFAULT_TRAIN_PARAMS.rotatingMassFactor ≠ 0 ∧
      (0:ℚ) ≤ 0 ∧ (0:ℚ) ≤ 0) ∧
    (computeBrakingCurveJS ratSqrt DEFAULT_TRAIN_PARAMS 0 0 1 0 [⟨0, 0⟩] =
      (computeBrakingCurve ratSqrt DEFAULT_TRAIN_PARAMS 0 0 1 0 [⟨0, 0⟩]).map
        finPoint ∧
    ∀ p ∈ computeBrakingCurveJS ratSqrt DEFAULT_TRAIN_PARAMS 0 0 1 0 [⟨0, 0⟩],
      ∃ qd qv : ℚ, p.distance = JSVal.fin qd ∧ p.speed = JSVal.fin qv ∧
        0 ≤ qd ∧ 0 ≤ qv) :=
  ⟨⟨ratSqrt_nonneg, by norm_num [DEFAULT_TRAIN_PARAMS], le_refl 0, le_refl 0⟩,
    braking_curve_points_finite_nonneg ratSqrt DEFAULT_TRAIN_PARAMS 0 0 1 0 [⟨0, 0⟩]
      ratSqrt_nonneg (by norm_num [DEFAULT_TRAIN_PARAMS]) (le_refl 0) (le_refl 0)⟩

/-- Default parameters with the rotating-mass factor zeroed out —
`updateParams` accepts any partial parameter record, so this reaches the
braking model unchecked. -/
def zeroMassParams : TrainParameters :=
  { DEFAULT_TRAIN_PARAMS with rotatingMassFactor := 0 }

/-- Counterexample to the unrestricted finiteness claim: with
`rotatingMassFactor = 0`, a stop target one metre ahead and a flat profile,
`effectiveDeceleration` divides by zero; JavaScript produces `Infinity`,
the very first loop iteration computes `vSquared = Infinity`, passes the
`vSquared < 0` guard (false for Infinity), takes `Math.sqrt(Infinity) =
Infinity`, trips the `speed > 120` break, and stores the curve point
`{distance: 0, speed: Infinity}` — a non-finite value in the returned
curve. -/
theorem braking_curve_infinite_point :
    zeroMassParams.rotatingMassFactor = 0 ∧
    computeBrakingCurveJS ratSqrt zeroMassParams 0 1 1 0 [⟨0, 0⟩] =
      [⟨JSVal.fin 0, JSVal.inf⟩, ⟨JSVal.fin 1, JSVal.fin 0⟩] ∧
    JSVal.inf ∈ (computeBrakingCurveJS ratSqrt zeroMassParams 0 1 1 0
      [⟨0, 0⟩]).map (fun p => p.speed) := by
  have hg : getGradientAtProfile [(⟨0, 0⟩ : GradientPoint)] 1 = 0 := by
    norm_num [getGradientAtProfile, gradLoop]
  have h1 : effectiveDecelerationJS zeroMassParams 1 0 = JSVal.inf := by
    simp only [effectiveDecelerationJS, jsDiv, zeroMassParams]
    norm_num [jsMax, gravG]
  have h2 : brakingVSqJS zeroMassParams 1 1 [(⟨0, 0⟩ : GradientPoint)] 1
      (JSVal.fin 0) = JSVal.inf := by
    rw [brakingVSqJS, hg, h1]
    norm_num [jsMul, jsAdd]
  have hcurve : computeBrakingCurveJS ratSqrt zeroMassParams 0 1 1 0 [⟨0, 0⟩] =
      [⟨JSVal.fin 0, JSVal.inf⟩, ⟨JSVal.fin 1, JSVal.fin 0⟩] := by
    rw [computeBrakingCurveJS_no_shift ratSqrt zeroMassParams 0 1 1 0 [⟨0, 0⟩]
      (lt_irrefl 0)]
    rw [show max (1:ℚ) (1 / 500) = 1 from max_eq_left (by norm_num)]
    rw [brakingLoopJS]
    rw [if_pos (by norm_num : (0:ℚ) < 1), h2]
    rw [if_neg (by simp [jsLt])]
    rw [show jsSqrt ratSqrt JSVal.inf = JSVal.inf from rfl]
    rw [if_pos (by simp [jsLt])]
    norm_num
  exact ⟨rfl, hcurve, by rw [hcurve]; simp⟩

end RailSim
